import Mathlib

/-!
Verification of the request-handler coordination core.

This file gives a shallow embedding, in Lean 4, of the parts of the
request-handler TypeScript code base that the checked properties are about:

* the ownership / role computation (`src/initNode/helpers.ts`),
* the controller's next-request selector and the concurrency gate
  (`src/client/processRequests.ts`),
* the token-bucket client (`RequestLimitClient`),
* the retry / backoff decision (`src/client/handleRequestError.ts`),
* the request-defaults merge (`Request` constructor and
  `Request.handleRequestDefaults`),
* the freeze / thaw machinery (`handleRedisMessage.ts` together with
  `processRequests.ts`).

JavaScript idioms are embedded explicitly: `x || d` on numbers and booleans
is modelled by `jsOrInt` / `jsOrBool` (falsy values `0`, `false`, `undefined`
fall through to the default), optional fields by `Option`, and the string
comparisons (`localeCompare` on ASCII ids, `<` on strings) by a
code-point lexicographic order on the underlying character lists.
-/

/-! ### JavaScript value helpers -/

/-- JS `a || b` for an optional boolean `a`: `undefined` and `false` are
falsy, so the expression yields `b` unless `a` is `some true`. -/
def jsOrBool (a : Option Bool) (b : Bool) : Bool :=
  match a with
  | some true => true
  | _ => b

/-- JS `a || b` for an optional integer `a`: `undefined` and `0` are falsy. -/
def jsOrInt (a : Option Int) (b : Int) : Int :=
  match a with
  | some x => if x = 0 then b else x
  | none => b

/-- JS truthiness of an optional number (`undefined` and `0` are falsy). -/
def numTruthy : Option Nat → Bool
  | none => false
  | some s => s ≠ 0

/-- JS truthiness of an optional string (`undefined` and the empty string
are falsy). -/
def strTruthy : Option String → Bool
  | none => false
  | some s => s ≠ ""

/-! ### Lexicographic string order

`String.localeCompare` (on the ASCII instance/request ids used by the
program) and the JS `<` operator on strings both compare code points
lexicographically.  We model them by a lexicographic order on the
character list of the string. -/

/-- Strict lexicographic order on character lists (code-point order). -/
def charListLT : List Char → List Char → Bool
  | [], [] => false
  | [], _ :: _ => true
  | _ :: _, [] => false
  | a :: as, b :: bs => a < b || (a = b && charListLT as bs)

/-- JS `a < b` on strings: strict lexicographic code-point order. -/
def strLT (a b : String) : Bool :=
  charListLT a.data b.data

/-- Non-strict companion of `strLT`. -/
def strLE (a b : String) : Bool :=
  strLT a b || a == b

theorem charListLT_trans {as bs cs : List Char} (h1 : charListLT as bs)
    (h2 : charListLT bs cs) : charListLT as cs := by
  induction as generalizing bs cs with
  | nil =>
    cases bs with
    | nil => simp [charListLT] at h1
    | cons b bs' =>
      cases cs with
      | nil => simp [charListLT] at h2
      | cons c cs' => simp [charListLT]
  | cons a as' ih =>
    cases bs with
    | nil => simp [charListLT] at h1
    | cons b bs' =>
      cases cs with
      | nil => simp [charListLT] at h2
      | cons c cs' =>
        simp only [charListLT, Bool.or_eq_true, Bool.and_eq_true,
          decide_eq_true_eq] at h1 h2 ⊢
        rcases h1 with h1 | ⟨rfl, h1⟩
        · rcases h2 with h2 | ⟨rfl, h2⟩
          · exact Or.inl (lt_trans h1 h2)
          · exact Or.inl h1
        · rcases h2 with h2 | ⟨rfl, h2⟩
          · exact Or.inl h2
          · exact Or.inr ⟨rfl, ih h1 h2⟩

theorem charListLT_trichotomy (as bs : List Char) :
    charListLT as bs ∨ as = bs ∨ charListLT bs as := by
  induction as generalizing bs with
  | nil => cases bs <;> simp [charListLT]
  | cons a as' ih =>
    cases bs with
    | nil => simp [charListLT]
    | cons b bs' =>
      simp only [charListLT, Bool.or_eq_true, Bool.and_eq_true,
        decide_eq_true_eq, List.cons.injEq]
      rcases lt_trichotomy a b with h | rfl | h
      · exact Or.inl (Or.inl h)
      · rcases ih bs' with h | rfl | h
        · exact Or.inl (Or.inr ⟨rfl, h⟩)
        · exact Or.inr (Or.inl ⟨rfl, rfl⟩)
        · exact Or.inr (Or.inr (Or.inr ⟨rfl, h⟩))
      · exact Or.inr (Or.inr (Or.inl h))

theorem charListLT_irrefl (as : List Char) : charListLT as as = false := by
  induction as with
  | nil => simp [charListLT]
  | cons a as' ih => simp [charListLT, ih]

theorem charListLT_asymm {as bs : List Char} (h : charListLT as bs) :
    charListLT bs as = false := by
  by_contra hc
  have hba : charListLT bs as := by
    cases hx : charListLT bs as with
    | true => rfl
    | false => exact absurd hx hc
  have : charListLT as as := charListLT_trans h hba
  rw [charListLT_irrefl] at this
  exact Bool.false_ne_true this

theorem strLT_trans {a b c : String} (h1 : strLT a b) (h2 : strLT b c) :
    strLT a c :=
  charListLT_trans h1 h2

theorem strLT_irrefl (a : String) : strLT a a = false :=
  charListLT_irrefl a.data

theorem strLT_asymm {a b : String} (h : strLT a b) : strLT b a = false :=
  charListLT_asymm h

theorem strLT_trichotomy (a b : String) : strLT a b ∨ a = b ∨ strLT b a := by
  rcases charListLT_trichotomy a.data b.data with h | h | h
  · exact Or.inl h
  · refine Or.inr (Or.inl ?_)
    cases a; cases b
    simp only [String.data] at h
    simp [h]
  · exact Or.inr (Or.inr h)

theorem strLE_trans {a b c : String} (h1 : strLE a b) (h2 : strLE b c) :
    strLE a c := by
  simp only [strLE, Bool.or_eq_true, beq_iff_eq] at h1 h2 ⊢
  rcases h1 with h1 | rfl
  · rcases h2 with h2 | rfl
    · exact Or.inl (strLT_trans h1 h2)
    · exact Or.inl h1
  · exact h2

theorem strLE_total (a b : String) : strLE a b ∨ strLE b a := by
  simp only [strLE, Bool.or_eq_true, beq_iff_eq]
  rcases strLT_trichotomy a b with h | rfl | h
  · exact Or.inl (Or.inl h)
  · exact Or.inl (Or.inr rfl)
  · exact Or.inr (Or.inl h)

theorem strLE_of_ne_lt {a b : String} (h : strLE a b) (hne : a ≠ b) :
    strLT a b := by
  simp only [strLE, Bool.or_eq_true, beq_iff_eq] at h
  rcases h with h | rfl
  · exact h
  · exact absurd rfl hne

/-! ### Shared base types -/

/-- Role of an instance (or of a client object) for a given client name.
Older snapshots of the code call the two roles `master` / `slave`; newer
ones `controller` / `worker`.  The values are in bijection, so we use one
type. -/
inductive ClientRole
  | controller
  | worker
deriving DecidableEq

/-- The rate-limit policy variants (`rateLimit.type` in the source). -/
inductive RateLimitType
  | noLimit
  | requestLimit
  | concurrencyLimit
  | shared
deriving DecidableEq

/-- Status of a request record (`RequestMetadata.status`). -/
inductive RequestStatus
  | inQueue
  | inProgress
deriving DecidableEq

/-- One request record as kept in the controller's `requests` map. -/
structure RequestMetadata where
  requestId : String
  priority : Int
  cost : Int
  timestamp : Int
  retries : Int
  status : RequestStatus
deriving DecidableEq

/-! ### Ownership / role computation (`src/initNode/helpers.ts`)

`updateClientRoles` computes, for every client registered on this
instance, the role `worker` when some instance sorted before this one
also registers the client, and `controller` otherwise.
`getClientsBeforeNode` sorts the known instances by `priority`
descending, ties broken by `localeCompare` so that the lexicographically
greater id sorts first, and collects the client names registered by the
instances strictly before this one. -/

namespace InitNode

/-- The per-instance data kept in the in-memory `requestHandlers` map:
id, priority and the set of registered client names. -/
structure NodeData where
  id : String
  priority : Int
  registeredClients : List String
deriving DecidableEq

/-- The sort comparator of `getClientsBeforeNode`, as the relation
"sorts before or equal": priority descending, ties broken by
`b.id.localeCompare(a.id)` (the greater id sorts first). -/
def nodeLE (a b : NodeData) : Bool :=
  if a.priority = b.priority then strLE b.id a.id
  else decide (b.priority < a.priority)

/-- `nodes.sort(comparator)` of `getClientsBeforeNode`. -/
def sortNodes (nodes : List NodeData) : List NodeData :=
  nodes.mergeSort nodeLE

/-- The collection loop of `getClientsBeforeNode`: walk the sorted
instances, stop at this instance's id, and gather every client name
registered before it. -/
def clientsBeforeAux (myId : String) : List NodeData → List String
  | [] => []
  | n :: rest =>
    if n.id = myId then []
    else n.registeredClients ++ clientsBeforeAux myId rest

/-- `getClientsBeforeNode` from `src/initNode/helpers.ts`. -/
def getClientsBeforeNode (nodes : List NodeData) (myId : String) :
    List String :=
  clientsBeforeAux myId (sortNodes nodes)

/-- The `newRole` computation of `updateClientRoles`:
`clientsBefore.has(name) ? "worker" : "controller"`. -/
def roleFor (nodes : List NodeData) (myId : String) (clientName : String) :
    ClientRole :=
  if clientName ∈ getClientsBeforeNode nodes myId then .worker
  else .controller

/-- The loop body of `updateClientRoles`: the role assigned to each of
this instance's registered clients. -/
def updateClientRoles (nodes : List NodeData) (myId : String)
    (clients : List String) : List (String × ClientRole) :=
  clients.map fun c => (c, roleFor nodes myId c)

/-- The strict ordering of the spec: priority descending, ties broken by
the lexicographically greater id. -/
def nodeBefore (a b : NodeData) : Prop :=
  b.priority < a.priority ∨ (a.priority = b.priority ∧ strLT b.id a.id)

theorem nodeLE_trans (a b c : NodeData) (h1 : nodeLE a b = true)
    (h2 : nodeLE b c = true) : nodeLE a c = true := by
  unfold nodeLE at h1 h2 ⊢
  by_cases hab : a.priority = b.priority
  · by_cases hbc : b.priority = c.priority
    · rw [if_pos hab] at h1
      rw [if_pos hbc] at h2
      rw [if_pos (hab.trans hbc)]
      exact strLE_trans h2 h1
    · rw [if_neg hbc, decide_eq_true_eq] at h2
      have hac : ¬ a.priority = c.priority := by omega
      rw [if_neg hac, decide_eq_true_eq]
      omega
  · rw [if_neg hab, decide_eq_true_eq] at h1
    by_cases hbc : b.priority = c.priority
    · have hac : ¬ a.priority = c.priority := by omega
      rw [if_neg hac, decide_eq_true_eq]
      omega
    · rw [if_neg hbc, decide_eq_true_eq] at h2
      have hac : ¬ a.priority = c.priority := by omega
      rw [if_neg hac, decide_eq_true_eq]
      omega

theorem nodeLE_total (a b : NodeData) : (nodeLE a b || nodeLE b a) = true := by
  unfold nodeLE
  by_cases hab : a.priority = b.priority
  · simp only [hab, if_true, if_pos rfl, Bool.or_eq_true]
    exact strLE_total b.id a.id
  · have hba : ¬ b.priority = a.priority := fun h => hab h.symm
    simp only [if_neg hab, if_neg hba, Bool.or_eq_true, decide_eq_true_eq]
    omega

theorem nodeBefore_of_nodeLE {a b : NodeData} (h : nodeLE a b = true)
    (hid : a.id ≠ b.id) : nodeBefore a b := by
  unfold nodeLE at h
  unfold nodeBefore
  by_cases hab : a.priority = b.priority
  · simp only [hab, if_pos rfl] at h
    exact Or.inr ⟨hab, strLE_of_ne_lt h (fun he => hid (he.symm))⟩
  · simp only [if_neg hab, decide_eq_true_eq] at h
    exact Or.inl h

theorem mem_clientsBeforeAux_iff (L1 : List NodeData) (n : NodeData)
    (L2 : List NodeData) (h : n.id ∉ L1.map NodeData.id) (c : String) :
    c ∈ clientsBeforeAux n.id (L1 ++ n :: L2) ↔
      ∃ m ∈ L1, c ∈ m.registeredClients := by
  induction L1 with
  | nil => simp [clientsBeforeAux]
  | cons a L1' ih =>
    simp only [List.map_cons, List.mem_cons, not_or] at h
    obtain ⟨h1, h2⟩ := h
    have hne : a.id ≠ n.id := fun he => h1 he.symm
    have hstep : clientsBeforeAux n.id ((a :: L1') ++ n :: L2) =
        a.registeredClients ++ clientsBeforeAux n.id (L1' ++ n :: L2) := by
      simp [clientsBeforeAux, hne]
    rw [hstep]
    rw [List.mem_append, ih h2]
    constructor
    · rintro (hc | ⟨m, hm, hmc⟩)
      · exact ⟨a, List.mem_cons_self a L1', hc⟩
      · exact ⟨m, List.mem_cons_of_mem a hm, hmc⟩
    · rintro ⟨m, hm, hmc⟩
      rcases List.mem_cons.mp hm with rfl | hm
      · exact Or.inl hmc
      · exact Or.inr ⟨m, hm, hmc⟩

theorem notmem_map_of_nodup_decomp {pre post : List NodeData} {x : NodeData}
    (h : ((pre ++ x :: post).map NodeData.id).Nodup) :
    x.id ∉ pre.map NodeData.id := by
  rw [List.map_append, List.map_cons, List.nodup_append] at h
  intro hmem
  exact h.2.2 hmem (List.mem_cons_self _ _)

/-- C1: with a shared view of the instance table (a list of instance
records with pairwise-distinct ids), every client name registered by at
least one instance has exactly one controller: the first instance under
the order "priority descending, ties broken by the lexicographically
greater id" among the instances registering the name.  Every other
instance registering the name is assigned worker. -/
theorem roleFor_unique_controller
    (nodes : List NodeData) (hnd : (nodes.map NodeData.id).Nodup)
    (c : String) (hreg : ∃ n ∈ nodes, c ∈ n.registeredClients) :
    ∃ n ∈ nodes, c ∈ n.registeredClients ∧
      roleFor nodes n.id c = ClientRole.controller ∧
      ∀ m ∈ nodes, c ∈ m.registeredClients → m ≠ n →
        nodeBefore n m ∧ roleFor nodes m.id c = ClientRole.worker := by
  classical
  set L := sortNodes nodes with hLdef
  have hperm : L.Perm nodes := by
    rw [hLdef]
    exact List.mergeSort_perm nodes nodeLE
  have hpair : L.Pairwise (fun a b => nodeLE a b = true) := by
    rw [hLdef]
    exact List.sorted_mergeSort nodeLE_trans nodeLE_total nodes
  have hndL : (L.map NodeData.id).Nodup :=
    ((hperm.map NodeData.id).nodup_iff).mpr hnd
  have hp : ∃ x ∈ L, (decide (c ∈ x.registeredClients)) = true := by
    obtain ⟨n, hn, hcn⟩ := hreg
    exact ⟨n, hperm.mem_iff.mpr hn, by simpa using hcn⟩
  have hsome : (L.find? (fun m => decide (c ∈ m.registeredClients))).isSome :=
    List.find?_isSome.mpr hp
  obtain ⟨n, hfind⟩ := Option.isSome_iff_exists.mp hsome
  obtain ⟨hpn, as, bs, hL, has⟩ := List.find?_eq_some.mp hfind
  have hcn : c ∈ n.registeredClients := by simpa using hpn
  have hnL : n ∈ L := by
    rw [hL]
    exact List.mem_append_right _ (List.mem_cons_self _ _)
  have hnNodes : n ∈ nodes := hperm.mem_iff.mp hnL
  have hnid_as : n.id ∉ as.map NodeData.id :=
    notmem_map_of_nodup_decomp (hL ▸ hndL)
  have hrole_n : roleFor nodes n.id c = ClientRole.controller := by
    have hnot : c ∉ clientsBeforeAux n.id L := by
      rw [hL, mem_clientsBeforeAux_iff as n bs hnid_as]
      rintro ⟨m, hm, hmc⟩
      have hm' := has m hm
      simp [hmc] at hm'
    simp only [roleFor, getClientsBeforeNode, ← hLdef]
    rw [if_neg hnot]
  refine ⟨n, hnNodes, hcn, hrole_n, ?_⟩
  intro m hmNodes hmc hmn
  have hmL : m ∈ L := hperm.mem_iff.mpr hmNodes
  have hm_not_as : m ∉ as := by
    intro hmem
    have hm' := has m hmem
    simp [hmc] at hm'
  have hm_bs : m ∈ bs := by
    rw [hL] at hmL
    rcases List.mem_append.mp hmL with h | h
    · exact absurd h hm_not_as
    · rcases List.mem_cons.mp h with h | h
      · exact absurd h hmn
      · exact h
  obtain ⟨cs, ds, hbs⟩ := List.append_of_mem hm_bs
  have hL2 : L = (as ++ n :: cs) ++ m :: ds := by
    rw [hL, hbs]
    simp
  have hle : nodeLE n m = true := by
    have hpair' := hL ▸ hpair
    have h2 := (List.pairwise_append.mp hpair').2.1
    exact List.rel_of_pairwise_cons h2 hm_bs
  have hids : n.id ≠ m.id := by
    intro he
    exact hmn (List.inj_on_of_nodup_map hndL hmL hnL he.symm)
  have hbefore : nodeBefore n m := nodeBefore_of_nodeLE hle hids
  have hmid_pre : m.id ∉ (as ++ n :: cs).map NodeData.id :=
    notmem_map_of_nodup_decomp (hL2 ▸ hndL)
  have hrole_m : roleFor nodes m.id c = ClientRole.worker := by
    have hmem : c ∈ clientsBeforeAux m.id L := by
      rw [hL2, mem_clientsBeforeAux_iff (as ++ n :: cs) m ds hmid_pre]
      exact ⟨n, List.mem_append_right _ (List.mem_cons_self _ _), hcn⟩
    simp only [roleFor, getClientsBeforeNode, ← hLdef]
    rw [if_pos hmem]
  exact ⟨hbefore, hrole_m⟩


/-- Concrete instance table for the C1 witness: two instances, the
higher-priority one registering both clients. -/
def witnessNodes : List NodeData :=
  [⟨"alpha", 1, ["pay"]⟩, ⟨"beta", 2, ["pay", "img"]⟩]

/-- Witness for C1: on a concrete two-instance table the hypotheses hold
and the conclusion follows by the theorem. -/
theorem roleFor_unique_controller_witness :
    (witnessNodes.map NodeData.id).Nodup ∧
      (∃ n ∈ witnessNodes, "pay" ∈ n.registeredClients) ∧
      ∃ n ∈ witnessNodes, "pay" ∈ n.registeredClients ∧
        roleFor witnessNodes n.id "pay" = ClientRole.controller ∧
        ∀ m ∈ witnessNodes, "pay" ∈ m.registeredClients → m ≠ n →
          nodeBefore n m ∧ roleFor witnessNodes m.id "pay" = ClientRole.worker :=
  ⟨by decide, ⟨⟨"alpha", 1, ["pay"]⟩, by decide, by decide⟩,
    roleFor_unique_controller witnessNodes (by decide) "pay"
      ⟨⟨"alpha", 1, ["pay"]⟩, by decide, by decide⟩⟩

end InitNode

/-! ### The controller's next-request selector (`src/client/processRequests.ts`)

`getNextRequest` re-sorts the request map when it is marked unsorted
(the flag only caches the sorted order, so we model the selector as
always sorting) and returns the first entry with status `inQueue`.
The JS comparator is inconsistent on pairs of `inProgress` entries (it
answers "after" for both orders); the embedding treats such pairs as
ties, which does not affect which `inQueue` entry comes first. -/

namespace ProcessRequests

/-- The innermost part of the `getNextRequest` comparator, for two
entries that are both `inQueue`: priority descending, then retries
descending, then timestamp ascending, then requestId ascending
(as the relation "sorts before or equal"). -/
def queueCmpLE (a b : RequestMetadata) : Bool :=
  if a.priority = b.priority then
    if a.retries = b.retries then
      if a.timestamp = b.timestamp then strLE a.requestId b.requestId
      else decide (a.timestamp < b.timestamp)
    else decide (b.retries < a.retries)
  else decide (b.priority < a.priority)

/-- The full `getNextRequest` comparator: `inProgress` entries sort to
the end, `inQueue` entries by `queueCmpLE`. -/
def requestLE (a b : RequestMetadata) : Bool :=
  match a.status, b.status with
  | .inProgress, .inProgress => true
  | .inProgress, .inQueue => false
  | .inQueue, .inProgress => true
  | .inQueue, .inQueue => queueCmpLE a b

/-- The re-sort performed by `getNextRequest` when the map is dirty. -/
def sortRequests (reqs : List RequestMetadata) : List RequestMetadata :=
  reqs.mergeSort requestLE

/-- `getNextRequest`: sort, then return the first entry still `inQueue`. -/
def getNextRequest (reqs : List RequestMetadata) : Option RequestMetadata :=
  (sortRequests reqs).find? fun r => r.status == RequestStatus.inQueue

/-- The strict ranking of the spec (rank r1 < rank r2): higher priority
first, then higher retries, then earlier timestamp, then
lexicographically smaller requestId. -/
def rankLT (a b : RequestMetadata) : Prop :=
  b.priority < a.priority ∨
    (a.priority = b.priority ∧
      (b.retries < a.retries ∨
        (a.retries = b.retries ∧
          (a.timestamp < b.timestamp ∨
            (a.timestamp = b.timestamp ∧
              strLT a.requestId b.requestId = true)))))

theorem queueCmpLE_trans (a b c : RequestMetadata)
    (h1 : queueCmpLE a b = true) (h2 : queueCmpLE b c = true) :
    queueCmpLE a c = true := by
  unfold queueCmpLE at h1 h2 ⊢
  by_cases hpab : a.priority = b.priority
  all_goals by_cases hpbc : b.priority = c.priority
  · rw [if_pos hpab] at h1
    rw [if_pos hpbc] at h2
    rw [if_pos (hpab.trans hpbc)]
    by_cases hrab : a.retries = b.retries
    all_goals by_cases hrbc : b.retries = c.retries
    · rw [if_pos hrab] at h1
      rw [if_pos hrbc] at h2
      rw [if_pos (hrab.trans hrbc)]
      by_cases htab : a.timestamp = b.timestamp
      all_goals by_cases htbc : b.timestamp = c.timestamp
      · rw [if_pos htab] at h1
        rw [if_pos htbc] at h2
        rw [if_pos (htab.trans htbc)]
        exact strLE_trans h1 h2
      · rw [if_pos htab] at h1
        rw [if_neg htbc, decide_eq_true_eq] at h2
        have hne : ¬ a.timestamp = c.timestamp := by omega
        rw [if_neg hne, decide_eq_true_eq]
        omega
      · rw [if_neg htab, decide_eq_true_eq] at h1
        rw [if_pos htbc] at h2
        have hne : ¬ a.timestamp = c.timestamp := by omega
        rw [if_neg hne, decide_eq_true_eq]
        omega
      · rw [if_neg htab, decide_eq_true_eq] at h1
        rw [if_neg htbc, decide_eq_true_eq] at h2
        have hne : ¬ a.timestamp = c.timestamp := by omega
        rw [if_neg hne, decide_eq_true_eq]
        omega
    · rw [if_pos hrab] at h1
      rw [if_neg hrbc, decide_eq_true_eq] at h2
      have hne : ¬ a.retries = c.retries := by omega
      rw [if_neg hne, decide_eq_true_eq]
      omega
    · rw [if_neg hrab, decide_eq_true_eq] at h1
      rw [if_pos hrbc] at h2
      have hne : ¬ a.retries = c.retries := by omega
      rw [if_neg hne, decide_eq_true_eq]
      omega
    · rw [if_neg hrab, decide_eq_true_eq] at h1
      rw [if_neg hrbc, decide_eq_true_eq] at h2
      have hne : ¬ a.retries = c.retries := by omega
      rw [if_neg hne, decide_eq_true_eq]
      omega
  · rw [if_pos hpab] at h1
    rw [if_neg hpbc, decide_eq_true_eq] at h2
    have hne : ¬ a.priority = c.priority := by omega
    rw [if_neg hne, decide_eq_true_eq]
    omega
  · rw [if_neg hpab, decide_eq_true_eq] at h1
    rw [if_pos hpbc] at h2
    have hne : ¬ a.priority = c.priority := by omega
    rw [if_neg hne, decide_eq_true_eq]
    omega
  · rw [if_neg hpab, decide_eq_true_eq] at h1
    rw [if_neg hpbc, decide_eq_true_eq] at h2
    have hne : ¬ a.priority = c.priority := by omega
    rw [if_neg hne, decide_eq_true_eq]
    omega

theorem queueCmpLE_total (a b : RequestMetadata) :
    (queueCmpLE a b || queueCmpLE b a) = true := by
  unfold queueCmpLE
  by_cases hp : a.priority = b.priority
  · rw [if_pos hp, if_pos hp.symm]
    by_cases hr : a.retries = b.retries
    · rw [if_pos hr, if_pos hr.symm]
      by_cases ht : a.timestamp = b.timestamp
      · rw [if_pos ht, if_pos ht.symm, Bool.or_eq_true]
        exact strLE_total a.requestId b.requestId
      · have hts : ¬ b.timestamp = a.timestamp := fun h => ht h.symm
        rw [if_neg ht, if_neg hts, Bool.or_eq_true, decide_eq_true_eq,
          decide_eq_true_eq]
        omega
    · have hrs : ¬ b.retries = a.retries := fun h => hr h.symm
      rw [if_neg hr, if_neg hrs, Bool.or_eq_true, decide_eq_true_eq,
        decide_eq_true_eq]
      omega
  · have hps : ¬ b.priority = a.priority := fun h => hp h.symm
    rw [if_neg hp, if_neg hps, Bool.or_eq_true, decide_eq_true_eq,
      decide_eq_true_eq]
    omega

theorem requestLE_trans (a b c : RequestMetadata)
    (h1 : requestLE a b = true) (h2 : requestLE b c = true) :
    requestLE a c = true := by
  cases ha : a.status <;> cases hb : b.status <;> cases hc : c.status <;>
    simp only [requestLE, ha, hb, hc] at h1 h2 ⊢ <;>
    first
      | exact queueCmpLE_trans a b c h1 h2
      | exact (Bool.false_ne_true h1).elim
      | exact (Bool.false_ne_true h2).elim

theorem requestLE_total (a b : RequestMetadata) :
    (requestLE a b || requestLE b a) = true := by
  cases ha : a.status <;> cases hb : b.status <;>
    simp only [requestLE, ha, hb, Bool.or_true, Bool.true_or]
  exact queueCmpLE_total a b

theorem rankLT_of_queueCmpLE {a b : RequestMetadata}
    (h : queueCmpLE a b = true) (hid : a.requestId ≠ b.requestId) :
    rankLT a b := by
  unfold queueCmpLE at h
  unfold rankLT
  by_cases hp : a.priority = b.priority
  · rw [if_pos hp] at h
    refine Or.inr ⟨hp, ?_⟩
    by_cases hr : a.retries = b.retries
    · rw [if_pos hr] at h
      refine Or.inr ⟨hr, ?_⟩
      by_cases ht : a.timestamp = b.timestamp
      · rw [if_pos ht] at h
        exact Or.inr ⟨ht, strLE_of_ne_lt h hid⟩
      · rw [if_neg ht, decide_eq_true_eq] at h
        exact Or.inl h
    · rw [if_neg hr, decide_eq_true_eq] at h
      exact Or.inl h
  · rw [if_neg hp, decide_eq_true_eq] at h
    exact Or.inl h

/-- C2: on a request map with distinct request ids, `getNextRequest`
returns an `inQueue` request that ranks before every other `inQueue`
request (higher priority first, then higher retries, then earlier
timestamp, then lexicographically smaller requestId); an `inProgress`
request is never returned, and whenever some `inQueue` request exists
one is returned.  In particular, of two queued requests the one ranking
first is the one selected for admission. -/
theorem getNextRequest_spec (reqs : List RequestMetadata)
    (hnd : (reqs.map RequestMetadata.requestId).Nodup) :
    (∀ r, getNextRequest reqs = some r →
        r ∈ reqs ∧ r.status = RequestStatus.inQueue ∧
        ∀ s ∈ reqs, s.status = RequestStatus.inQueue → s ≠ r → rankLT r s)
    ∧ ((∃ s ∈ reqs, s.status = RequestStatus.inQueue) →
        (getNextRequest reqs).isSome) := by
  classical
  set L := sortRequests reqs with hLdef
  have hperm : L.Perm reqs := by
    rw [hLdef]
    exact List.mergeSort_perm reqs requestLE
  have hpair : L.Pairwise (fun a b => requestLE a b = true) := by
    rw [hLdef]
    exact List.sorted_mergeSort requestLE_trans requestLE_total reqs
  have hndL : (L.map RequestMetadata.requestId).Nodup :=
    ((hperm.map RequestMetadata.requestId).nodup_iff).mpr hnd
  constructor
  · intro r hr
    have hr' : L.find? (fun x => x.status == RequestStatus.inQueue) = some r := by
      rw [hLdef]
      exact hr
    obtain ⟨hpr, as, bs, hL, has⟩ := List.find?_eq_some.mp hr'
    have hrq : r.status = RequestStatus.inQueue := by
      simpa using hpr
    have hrL : r ∈ L := by
      rw [hL]
      exact List.mem_append_right _ (List.mem_cons_self _ _)
    refine ⟨hperm.mem_iff.mp hrL, hrq, ?_⟩
    intro s hs hsq hsr
    have hsL : s ∈ L := hperm.mem_iff.mpr hs
    have hs_not_as : s ∉ as := by
      intro hmem
      have hfail := has s hmem
      simp [hsq] at hfail
    have hs_bs : s ∈ bs := by
      rw [hL] at hsL
      rcases List.mem_append.mp hsL with h | h
      · exact absurd h hs_not_as
      · rcases List.mem_cons.mp h with h | h
        · exact absurd h hsr
        · exact h
    have hle : requestLE r s = true := by
      have hpair' := hL ▸ hpair
      have h2 := (List.pairwise_append.mp hpair').2.1
      exact List.rel_of_pairwise_cons h2 hs_bs
    have hid : r.requestId ≠ s.requestId := by
      intro he
      exact hsr (List.inj_on_of_nodup_map hndL hsL hrL he.symm)
    have hq : queueCmpLE r s = true := by
      simpa only [requestLE, hrq, hsq] using hle
    exact rankLT_of_queueCmpLE hq hid
  · rintro ⟨s, hs, hsq⟩
    have : (L.find? (fun x => x.status == RequestStatus.inQueue)).isSome :=
      List.find?_isSome.mpr ⟨s, hperm.mem_iff.mpr hs, by simp [hsq]⟩
    rw [getNextRequest, ← hLdef]
    exact this

/-- Concrete request map for the C2 witness: one `inProgress` entry
listed first plus two queued entries with distinct priorities. -/
def witnessRequests : List RequestMetadata :=
  [⟨"r1", 5, 1, 100, 0, RequestStatus.inProgress⟩,
   ⟨"r2", 1, 1, 50, 0, RequestStatus.inQueue⟩,
   ⟨"r3", 2, 1, 90, 0, RequestStatus.inQueue⟩]

/-- Witness for C2: on a concrete request map the hypothesis holds and
the conclusion follows by the theorem. -/
theorem getNextRequest_spec_witness :
    (witnessRequests.map RequestMetadata.requestId).Nodup ∧
      ((∀ r, getNextRequest witnessRequests = some r →
          r ∈ witnessRequests ∧ r.status = RequestStatus.inQueue ∧
          ∀ s ∈ witnessRequests, s.status = RequestStatus.inQueue → s ≠ r →
            rankLT r s)
        ∧ ((∃ s ∈ witnessRequests, s.status = RequestStatus.inQueue) →
            (getNextRequest witnessRequests).isSome)) :=
  ⟨by decide, getNextRequest_spec witnessRequests (by decide)⟩

end ProcessRequests

/-! ### Concurrency gate (`waitForConcurrency` in
`src/client/processRequests.ts`)

`waitForConcurrency(cost)` resolves immediately when
`maxConcurrency >= currCost + cost` with `currCost` the summed cost of
the `inProgress` requests; otherwise it subscribes to the local
`requestDone` event and re-evaluates the same condition on each event,
resolving only once it holds.  The admission loop then marks the
selected request `inProgress`. -/

namespace ConcurrencyGate

/-- Loop body of `getRequestsInProgressCost`: skip requests not
`inProgress`, otherwise accumulate their cost. -/
def gipcStep (acc : Int) (r : RequestMetadata) : Int :=
  if r.status ≠ RequestStatus.inProgress then acc else acc + r.cost

/-- `getRequestsInProgressCost`: total cost of the requests whose status
is `inProgress`. -/
def getRequestsInProgressCost (reqs : List RequestMetadata) : Int :=
  reqs.foldl gipcStep 0

/-- The immediate-resolution test of `waitForConcurrency`
(`maxConcurrency >= currCost + cost`). -/
def waitForConcurrencyNow (maxConcurrency : Int)
    (reqs : List RequestMetadata) (cost : Int) : Bool :=
  decide (maxConcurrency ≥ getRequestsInProgressCost reqs + cost)

/-- The `requestDone` listener of `waitForConcurrency`: it returns
without resolving while `maxConcurrency < currCost + cost`, so it
resolves exactly when that test fails. -/
def requestDoneListenerResolves (maxConcurrency : Int)
    (reqs : List RequestMetadata) (cost : Int) : Bool :=
  ! decide (maxConcurrency < getRequestsInProgressCost reqs + cost)

/-- `requests.set(id, record with status inProgress)` for a present key. -/
def markInProgress (rid : String) (reqs : List RequestMetadata) :
    List RequestMetadata :=
  reqs.map fun r =>
    if r.requestId = rid then { r with status := RequestStatus.inProgress }
    else r

/-- The controller-side transitions touching the request map of a
`concurrencyLimit` client: a request is enqueued (`handleRequestAdded`,
with a fresh id and a nonnegative cost), admitted (marked `inProgress`
by the admission loop, guarded by `waitForConcurrency`), or completed
(`handleRequestDone` deletes the record). -/
inductive GateStep (maxC : Int) :
    List RequestMetadata → List RequestMetadata → Prop
  | add (reqs : List RequestMetadata) (r : RequestMetadata)
      (hq : r.status = RequestStatus.inQueue) (hc : 0 ≤ r.cost)
      (hfresh : r.requestId ∉ reqs.map RequestMetadata.requestId) :
      GateStep maxC reqs (reqs ++ [r])
  | admitReq (reqs : List RequestMetadata) (r : RequestMetadata)
      (hmem : r ∈ reqs) (hq : r.status = RequestStatus.inQueue)
      (hg : waitForConcurrencyNow maxC reqs r.cost = true) :
      GateStep maxC reqs (markInProgress r.requestId reqs)
  | done (reqs : List RequestMetadata) (rid : String) :
      GateStep maxC reqs (reqs.filter fun r => r.requestId ≠ rid)


theorem foldl_gipcStep_acc (l : List RequestMetadata) (acc : Int) :
    l.foldl gipcStep acc = acc + l.foldl gipcStep 0 := by
  induction l generalizing acc with
  | nil => simp
  | cons r l ih =>
    rw [List.foldl_cons, List.foldl_cons, ih (gipcStep acc r),
      ih (gipcStep 0 r)]
    unfold gipcStep
    by_cases h : r.status = RequestStatus.inProgress
    · simp only [h, ne_eq, not_true_eq_false, if_false]
      ring
    · simp only [ne_eq, h, not_false_eq_true, if_true]
      ring

theorem gipc_cons (r : RequestMetadata) (l : List RequestMetadata) :
    getRequestsInProgressCost (r :: l) =
      (if r.status = RequestStatus.inProgress then r.cost else 0) +
        getRequestsInProgressCost l := by
  simp only [getRequestsInProgressCost, List.foldl_cons]
  rw [foldl_gipcStep_acc]
  unfold gipcStep
  by_cases h : r.status = RequestStatus.inProgress
  · simp [h]
  · simp [h]

theorem markInProgress_of_not_mem (rid : String)
    (reqs : List RequestMetadata)
    (h : rid ∉ reqs.map RequestMetadata.requestId) :
    markInProgress rid reqs = reqs := by
  induction reqs with
  | nil => rfl
  | cons a l ih =>
    simp only [List.map_cons, List.mem_cons, not_or] at h
    have hne : a.requestId ≠ rid := fun he => h.1 he.symm
    have htail : markInProgress rid l = l := ih h.2
    simp only [markInProgress, List.map_cons, if_neg hne] at htail ⊢
    rw [htail]

theorem gipc_markInProgress (reqs : List RequestMetadata)
    (r : RequestMetadata)
    (hnd : (reqs.map RequestMetadata.requestId).Nodup)
    (hmem : r ∈ reqs) (hq : r.status = RequestStatus.inQueue) :
    getRequestsInProgressCost (markInProgress r.requestId reqs) =
      getRequestsInProgressCost reqs + r.cost := by
  induction reqs with
  | nil => cases hmem
  | cons a l ih =>
    simp only [List.map_cons, List.nodup_cons] at hnd
    by_cases hid : a.requestId = r.requestId
    · have hra : r = a := by
        rcases List.mem_cons.mp hmem with h | h
        · exact h
        · have : r.requestId ∈ l.map RequestMetadata.requestId :=
            List.mem_map_of_mem RequestMetadata.requestId h
          rw [← hid] at this
          exact absurd this hnd.1
      have hrest : markInProgress r.requestId l = l :=
        markInProgress_of_not_mem r.requestId l (hra ▸ hid ▸ hnd.1)
      have hstep : markInProgress r.requestId (a :: l) =
          { a with status := RequestStatus.inProgress } ::
            markInProgress r.requestId l := by
        simp [markInProgress, hid]
      have haq : a.status = RequestStatus.inQueue := hra ▸ hq
      rw [hstep, hrest, gipc_cons, gipc_cons, hra]
      simp only [haq, reduceCtorEq, if_false, if_true, eq_self_iff_true]
      omega
    · have hal : r ∈ l := by
        rcases List.mem_cons.mp hmem with h | h
        · exact absurd (congrArg RequestMetadata.requestId h.symm) hid
        · exact h
      have hstep : markInProgress r.requestId (a :: l) =
          a :: markInProgress r.requestId l := by
        simp [markInProgress, hid]
      rw [hstep, gipc_cons, gipc_cons, ih hnd.2 hal]
      ring

theorem gipc_filter_le (p : RequestMetadata → Bool)
    (reqs : List RequestMetadata) (hc : ∀ r ∈ reqs, 0 ≤ r.cost) :
    getRequestsInProgressCost (reqs.filter p) ≤
      getRequestsInProgressCost reqs := by
  induction reqs with
  | nil => simp
  | cons a l ih =>
    have hmono := ih fun r hr => hc r (List.mem_cons_of_mem a hr)
    have ha := hc a (List.mem_cons_self a l)
    by_cases hp : p a
    · rw [List.filter_cons_of_pos hp, gipc_cons, gipc_cons]
      omega
    · rw [List.filter_cons_of_neg (by simpa using hp), gipc_cons]
      by_cases hs : a.status = RequestStatus.inProgress
      · rw [if_pos hs]
        omega
      · rw [if_neg hs]
        omega

theorem gipc_append_single (reqs : List RequestMetadata)
    (r : RequestMetadata) :
    getRequestsInProgressCost (reqs ++ [r]) =
      getRequestsInProgressCost reqs +
        (if r.status = RequestStatus.inProgress then r.cost else 0) := by
  induction reqs with
  | nil =>
    rw [List.nil_append, gipc_cons]
    simp [getRequestsInProgressCost]
  | cons a l ih =>
    rw [List.cons_append, gipc_cons, gipc_cons, ih]
    ring

/-- The inductive invariant of the gate: bounded in-progress cost,
nonnegative costs, distinct ids. -/
def gateInv (maxC : Int) (reqs : List RequestMetadata) : Prop :=
  getRequestsInProgressCost reqs ≤ maxC ∧
    (∀ r ∈ reqs, 0 ≤ r.cost) ∧
    (reqs.map RequestMetadata.requestId).Nodup

theorem gateInv_step {maxC : Int} {reqs reqs' : List RequestMetadata}
    (hinv : gateInv maxC reqs) (hstep : GateStep maxC reqs reqs') :
    gateInv maxC reqs' := by
  obtain ⟨hcost, hnn, hnd⟩ := hinv
  cases hstep with
  | add r hq hc hfresh =>
    refine ⟨?_, ?_, ?_⟩
    · rw [gipc_append_single, hq]
      simp only [reduceCtorEq, if_false]
      omega
    · intro x hx
      rcases List.mem_append.mp hx with h | h
      · exact hnn x h
      · rw [List.mem_singleton.mp h]
        exact hc
    · rw [List.map_append]
      refine List.Nodup.append hnd (by simp) ?_
      intro x hx hx2
      simp only [List.map_cons, List.map_nil, List.mem_singleton] at hx2
      exact hfresh (hx2 ▸ hx)
  | admitReq r hmem hq hg =>
    have hg' : getRequestsInProgressCost reqs + r.cost ≤ maxC := by
      simpa [waitForConcurrencyNow, ge_iff_le] using hg
    refine ⟨?_, ?_, ?_⟩
    · rw [gipc_markInProgress reqs r hnd hmem hq]
      omega
    · intro x hx
      simp only [markInProgress, List.mem_map] at hx
      obtain ⟨y, hy, hxy⟩ := hx
      by_cases hid : y.requestId = r.requestId
      · rw [← hxy, if_pos hid]
        exact hnn y hy
      · rw [← hxy, if_neg hid]
        exact hnn y hy
    · have hids : (markInProgress r.requestId reqs).map
          RequestMetadata.requestId = reqs.map RequestMetadata.requestId := by
        simp only [markInProgress, List.map_map]
        refine List.map_congr_left ?_
        intro x hx
        by_cases hid : x.requestId = r.requestId
        · simp [hid]
        · simp [hid]
      rw [hids]
      exact hnd
  | done rid =>
    refine ⟨?_, ?_, ?_⟩
    · exact le_trans (gipc_filter_le _ reqs hnn) hcost
    · intro x hx
      exact hnn x (List.mem_of_mem_filter hx)
    · exact List.Nodup.sublist
        ((List.filter_sublist reqs).map RequestMetadata.requestId) hnd

/-- C4: `waitForConcurrency(cost)` resolves exactly when the summed cost
of `inProgress` requests plus `cost` is at most `maxConcurrency` — both
on the immediate path and in the `requestDone` listener that re-evaluates
the condition — and consequently every request map the controller can
reach keeps the total `inProgress` cost within `maxConcurrency`. -/
theorem waitForConcurrency_spec (maxC : Int) (hmax : 0 ≤ maxC) :
    (∀ (reqs : List RequestMetadata) (cost : Int),
        (waitForConcurrencyNow maxC reqs cost = true ↔
          getRequestsInProgressCost reqs + cost ≤ maxC)
        ∧ (requestDoneListenerResolves maxC reqs cost = true ↔
          getRequestsInProgressCost reqs + cost ≤ maxC))
    ∧ ∀ reqs, Relation.ReflTransGen (GateStep maxC) [] reqs →
        getRequestsInProgressCost reqs ≤ maxC := by
  constructor
  · intro reqs cost
    constructor
    · simp only [waitForConcurrencyNow, ge_iff_le, decide_eq_true_eq]
    · simp only [requestDoneListenerResolves, Bool.not_eq_true',
        decide_eq_false_iff_not, not_lt]
  · intro reqs hreach
    have hinv : gateInv maxC reqs := by
      induction hreach with
      | refl =>
        refine ⟨?_, by simp, by simp⟩
        simp only [getRequestsInProgressCost, List.foldl_nil]
        omega
      | tail hsteps hstep ih => exact gateInv_step ih hstep
    exact hinv.1

/-- Witness for C4 at `maxConcurrency = 2`: the hypothesis holds and the
conclusion follows by the theorem. -/
theorem waitForConcurrency_spec_witness :
    (0 : Int) ≤ 2 ∧
      ((∀ (reqs : List RequestMetadata) (cost : Int),
          (waitForConcurrencyNow 2 reqs cost = true ↔
            getRequestsInProgressCost reqs + cost ≤ 2)
          ∧ (requestDoneListenerResolves 2 reqs cost = true ↔
            getRequestsInProgressCost reqs + cost ≤ 2))
      ∧ ∀ reqs, Relation.ReflTransGen (GateStep 2) [] reqs →
          getRequestsInProgressCost reqs ≤ 2) :=
  ⟨by decide, waitForConcurrency_spec 2 (by decide)⟩

end ConcurrencyGate

/-! ### Retry decision and backoff (`src/client/handleRequestError.ts`)

`handleRetry` reads the effective retry options (each through the JS
defaulting expression `configured || default`), walks a first-match
cascade of rules, and on a retry calls `handleBackoff`, which increments
the request's retry counter and computes
`waitTime = retries ^ power * backoffBase` with
`backoffBase = (rateLimit.type === requestLimit && rateLimit.interval)
|| retryBackoffBaseTime`.  The `retryHandler` callback is modelled by
the verdict it resolves to (`retryHandlerVerdict`), `none` when no
handler is configured. -/

namespace HandleRequestError

/-- `retryBackoffMethod` values (the TS type `BackoffType`). -/
inductive BackoffMethod
  | exponential
  | linear
deriving DecidableEq

/-- The application-supplied `retryOptions`; absent fields are `none`. -/
structure RetryOptions where
  retry429s : Option Bool
  retry5xxs : Option Bool
  retryStatusCodes : Option (List Nat)
  retryBackoffBaseTime : Option Int
  retryBackoffMethod : Option BackoffMethod
  thawRequestCount : Option Int
  retryHandlerVerdict : Option Bool
deriving DecidableEq

/-- The client state `handleRetry` and `handleBackoff` read: the rate
limit variant, the token bucket's `interval`, and `retryOptions`. -/
structure ClientCtx where
  rateLimitType : RateLimitType
  interval : Int
  retryOptions : Option RetryOptions
deriving DecidableEq

/-- The error as `handleRetry` inspects it: `error?.response?.status`
and `error.code`. -/
structure ErrorInfo where
  status : Option Nat
  code : Option String
deriving DecidableEq

/-- The mutable record `handleRetry` builds (`message` omitted). -/
structure RequestRetryData where
  retry : Bool
  isRateLimited : Bool
  waitTime : Int
deriving DecidableEq

/-- `retryOptions?.retry429s || true`. -/
def effRetry429s (c : ClientCtx) : Bool :=
  jsOrBool (c.retryOptions.bind RetryOptions.retry429s) true

/-- `retryOptions?.retry5xxs || true`. -/
def effRetry5xxs (c : ClientCtx) : Bool :=
  jsOrBool (c.retryOptions.bind RetryOptions.retry5xxs) true

/-- `retryOptions?.retryStatusCodes || []` (an array is always truthy,
so only an absent field falls back). -/
def effRetryStatusCodes (c : ClientCtx) : List Nat :=
  (c.retryOptions.bind RetryOptions.retryStatusCodes).getD []

/-- `retryOptions?.retryBackoffBaseTime || 1000`. -/
def effRetryBackoffBaseTime (c : ClientCtx) : Int :=
  jsOrInt (c.retryOptions.bind RetryOptions.retryBackoffBaseTime) 1000

/-- `retryOptions?.retryBackoffMethod || "exponential"`. -/
def effRetryBackoffMethod (c : ClientCtx) : BackoffMethod :=
  (c.retryOptions.bind RetryOptions.retryBackoffMethod).getD
    BackoffMethod.exponential

/-- The transport error codes that always retry. -/
def retryableCodes : List String := ["ECONNRESET", "ETIMEDOUT", "ECONNABORTED"]

/-- `handleBackoff`: increment the retry counter, then
`waitTime = Math.pow(retries, power) * backoffBase`.  Returns the
updated record together with the incremented counter. -/
def handleBackoff (c : ClientCtx) (retries : Nat) (d : RequestRetryData) :
    RequestRetryData × Nat :=
  let backoffBase : Int :=
    if c.rateLimitType = RateLimitType.requestLimit ∧ c.interval ≠ 0 then
      c.interval
    else effRetryBackoffBaseTime c
  let power : Nat :=
    if effRetryBackoffMethod c = BackoffMethod.exponential then 2 else 1
  let newRetries := retries + 1
  ({ d with waitTime := (newRetries : Int) ^ power * backoffBase }, newRetries)

/-- The first-match cascade of `handleRetry`: the `data` record after
the `if`/`else if` chain, before the final backoff call. -/
def retryCascade (c : ClientCtx) (retries maxRetries : Nat)
    (err : ErrorInfo) : RequestRetryData :=
  let d0 : RequestRetryData :=
    { retry := true, isRateLimited := false, waitTime := 0 }
  if retries = maxRetries then { d0 with retry := false }
  else if numTruthy err.status && err.status == some 429 && effRetry429s c
    then { d0 with isRateLimited := true }
  else if numTruthy err.status && decide (500 ≤ err.status.getD 0) &&
      effRetry5xxs c then d0
  else if numTruthy err.status &&
      (effRetryStatusCodes c).contains (err.status.getD 0) then d0
  else if strTruthy err.code && retryableCodes.contains (err.code.getD "")
    then d0
  else
    match c.retryOptions.bind RetryOptions.retryHandlerVerdict with
    | some true => d0
    | some false => { d0 with retry := false }
    | none => { d0 with retry := false }

/-- `handleRetry`: the first-match cascade over the failed response,
followed by `handleBackoff` when a retry is indicated.  Returns the
retry record and the request's retry counter after the call. -/
def handleRetry (c : ClientCtx) (retries maxRetries : Nat)
    (err : ErrorInfo) : RequestRetryData × Nat :=
  let d := retryCascade c retries maxRetries err
  if d.retry = false then (d, retries)
  else handleBackoff c retries d

/-- Whether the (optional) HTTP status is a server error (500+). -/
def statusGe500 (st : Option Nat) : Bool :=
  match st with
  | some s => decide (500 ≤ s)
  | none => false

/-- Whether the (optional) HTTP status is listed in the given codes. -/
def statusInCodes (st : Option Nat) (l : List Nat) : Bool :=
  match st with
  | some s => l.contains s
  | none => false

/-- Whether the (optional) transport error code is one of the
always-retryable codes. -/
def codeRetryable (cd : Option String) : Bool :=
  match cd with
  | some k => retryableCodes.contains k
  | none => false

/-- The retry rules as the claim words them, first match wins: at
`maxRetries` no retry; HTTP 429 with `retry429s` retries and marks
rate-limited; HTTP 500+ with `retry5xxs` retries; a status in
`retryStatusCodes` retries; a transport code in `retryableCodes`
retries; otherwise the configured handler's verdict, and no handler
means no retry.  The pair is (retry, isRateLimited). -/
def retryDecisionSpec (c : ClientCtx) (retries maxRetries : Nat)
    (err : ErrorInfo) : Bool × Bool :=
  if retries = maxRetries then (false, false)
  else if err.status == some 429 && effRetry429s c then (true, true)
  else if statusGe500 err.status && effRetry5xxs c then (true, false)
  else if statusInCodes err.status (effRetryStatusCodes c) then (true, false)
  else if codeRetryable err.code then (true, false)
  else
    match c.retryOptions.bind RetryOptions.retryHandlerVerdict with
    | some v => (v, false)
    | none => (false, false)

end HandleRequestError

namespace HandleRequestError

theorem cond429_align (st : Option Nat) (b : Bool) :
    (numTruthy st && st == some 429 && b) = (st == some 429 && b) := by
  cases st with
  | none => rfl
  | some s =>
    by_cases hs : s = 429
    · subst hs
      rfl
    · have h4 : ((some s : Option Nat) == some 429) = false := by
        simpa using hs
      rw [h4]
      simp

theorem cond5xx_align (st : Option Nat) (b : Bool) :
    (numTruthy st && decide (500 ≤ st.getD 0) && b) =
      (statusGe500 st && b) := by
  cases st with
  | none => rfl
  | some s =>
    by_cases hs : 500 ≤ s
    · have hne : s ≠ 0 := by omega
      simp [numTruthy, statusGe500, hne]
    · simp [statusGe500, hs]

theorem condStatusCodes_align (st : Option Nat) (hne : st ≠ some 0)
    (l : List Nat) :
    (numTruthy st && l.contains (st.getD 0)) = statusInCodes st l := by
  cases st with
  | none => rfl
  | some s =>
    have hs : s ≠ 0 := fun h => hne (by rw [h])
    simp [numTruthy, statusInCodes, hs]

theorem condTransport_align (cd : Option String) :
    (strTruthy cd && retryableCodes.contains (cd.getD "")) =
      codeRetryable cd := by
  cases cd with
  | none => rfl
  | some k =>
    by_cases hk : k = ""
    · subst hk
      rfl
    · simp [strTruthy, codeRetryable, hk]

theorem handleRetry_proj (c : ClientCtx) (retries maxRetries : Nat)
    (err : ErrorInfo) :
    (handleRetry c retries maxRetries err).1.retry =
        (retryCascade c retries maxRetries err).retry ∧
      (handleRetry c retries maxRetries err).1.isRateLimited =
        (retryCascade c retries maxRetries err).isRateLimited := by
  unfold handleRetry
  by_cases h : (retryCascade c retries maxRetries err).retry = false
  · simp [h]
  · simp [h, handleBackoff]

/-- C6: the retry decision follows the first-match cascade of the claim:
no retry at `maxRetries`; otherwise 429 with `retry429s` retries and
sets `isRateLimited`; otherwise a 500+ status with `retry5xxs` retries;
otherwise a status in `retryStatusCodes` retries; otherwise a transport
code in ECONNRESET/ETIMEDOUT/ECONNABORTED retries; otherwise the
configured `retryHandler`'s verdict decides, and with none configured
there is no retry.  (The hypothesis excludes the impossible HTTP status
0, which JS treats as falsy.) -/
theorem handleRetry_first_match (c : ClientCtx) (retries maxRetries : Nat)
    (err : ErrorInfo) (hstatus : err.status ≠ some 0) :
    ((handleRetry c retries maxRetries err).1.retry,
      (handleRetry c retries maxRetries err).1.isRateLimited) =
      retryDecisionSpec c retries maxRetries err := by
  obtain ⟨hr, hrl⟩ := handleRetry_proj c retries maxRetries err
  rw [hr, hrl]
  unfold retryCascade retryDecisionSpec
  rw [cond429_align, cond5xx_align, condStatusCodes_align _ hstatus,
    condTransport_align]
  by_cases h1 : retries = maxRetries
  · simp [h1]
  · rw [if_neg h1, if_neg h1]
    by_cases h2 : (err.status == some 429 && effRetry429s c) = true
    · simp [h2]
    · rw [if_neg h2, if_neg h2]
      by_cases h3 : (statusGe500 err.status && effRetry5xxs c) = true
      · simp [h3]
      · rw [if_neg h3, if_neg h3]
        by_cases h4 : statusInCodes err.status (effRetryStatusCodes c) = true
        · simp [h4]
        · rw [if_neg h4, if_neg h4]
          by_cases h5 : codeRetryable err.code = true
          · simp [h5]
          · rw [if_neg h5, if_neg h5]
            cases hv : c.retryOptions.bind RetryOptions.retryHandlerVerdict with
            | none => rfl
            | some v => cases v <;> rfl

end HandleRequestError

namespace HandleRequestError

/-- Concrete client context for the C6 witness (no special options). -/
def witnessCtx : ClientCtx := ⟨RateLimitType.noLimit, 0, none⟩

/-- Concrete error for the C6 witness: HTTP 503. -/
def witnessErr : ErrorInfo := ⟨some 503, none⟩

/-- Witness for C6: at a concrete 503 error the hypothesis holds and the
cascade equality follows by the theorem. -/
theorem handleRetry_first_match_witness :
    witnessErr.status ≠ some 0 ∧
      ((handleRetry witnessCtx 0 3 witnessErr).1.retry,
        (handleRetry witnessCtx 0 3 witnessErr).1.isRateLimited) =
        retryDecisionSpec witnessCtx 0 3 witnessErr :=
  ⟨by decide, handleRetry_first_match witnessCtx 0 3 witnessErr (by decide)⟩

theorem jsOrBool_true (a : Option Bool) : jsOrBool a true = true := by
  cases a with
  | none => rfl
  | some b => cases b <;> rfl

/-- C9: the effective `retry429s` and `retry5xxs` flags are `true` for
every configuration — the defaulting expression is `configured || true`,
so even an explicit `false` is overridden — and consequently, below
`maxRetries`, an HTTP 429 is always classified retryable (and marks
`isRateLimited`) and an HTTP 500+ is always classified retryable. -/
theorem retryFlags_always_true :
    (∀ c : ClientCtx, effRetry429s c = true ∧ effRetry5xxs c = true) ∧
      (∀ (c : ClientCtx) (retries maxRetries : Nat) (err : ErrorInfo),
        retries < maxRetries → err.status = some 429 →
          (handleRetry c retries maxRetries err).1.retry = true ∧
            (handleRetry c retries maxRetries err).1.isRateLimited = true) ∧
      (∀ (c : ClientCtx) (retries maxRetries : Nat) (err : ErrorInfo)
          (s : Nat),
        retries < maxRetries → err.status = some s → 500 ≤ s →
          (handleRetry c retries maxRetries err).1.retry = true) := by
  have hflags : ∀ c : ClientCtx,
      effRetry429s c = true ∧ effRetry5xxs c = true := by
    intro c
    exact ⟨jsOrBool_true _, jsOrBool_true _⟩
  refine ⟨hflags, ?_, ?_⟩
  · intro c retries maxRetries err hlt h429
    have hne : err.status ≠ some 0 := by
      rw [h429]
      simp
    have hmax : ¬ retries = maxRetries := by omega
    have heq := handleRetry_first_match c retries maxRetries err hne
    have hcond : (err.status == some 429 && effRetry429s c) = true := by
      rw [h429, (hflags c).1]
      simp
    rw [retryDecisionSpec, if_neg hmax, if_pos hcond] at heq
    exact ⟨congrArg Prod.fst heq, congrArg Prod.snd heq⟩
  · intro c retries maxRetries err s hlt hst hge
    have hne : err.status ≠ some 0 := by
      rw [hst]
      intro h
      cases h
      omega
    have hmax : ¬ retries = maxRetries := by omega
    have heq := handleRetry_first_match c retries maxRetries err hne
    have hnot429 : (err.status == some 429 && effRetry429s c) = false := by
      rw [hst]
      have : s ≠ 429 := by omega
      simp [this]
    have h5 : (statusGe500 err.status && effRetry5xxs c) = true := by
      rw [hst, (hflags c).2]
      simp [statusGe500, hge]
    rw [retryDecisionSpec, if_neg hmax, if_neg (by rw [hnot429]; simp),
      if_pos h5] at heq
    exact congrArg Prod.fst heq

/-- Client context with `retry429s` and `retry5xxs` explicitly set to
`false`, for the C9 witness. -/
def witnessCtxFlagsOff : ClientCtx :=
  ⟨RateLimitType.noLimit, 0,
    some ⟨some false, some false, none, none, none, none, none⟩⟩

/-- Concrete 429 error for the C9 witness. -/
def witnessErr429 : ErrorInfo := ⟨some 429, none⟩

/-- Witness for C9: with both flags explicitly `false`, the effective
flags are still `true`, a 429 below `maxRetries` retries and marks
rate-limited, and a 503 below `maxRetries` retries. -/
theorem retryFlags_always_true_witness :
    (effRetry429s witnessCtxFlagsOff = true ∧
      effRetry5xxs witnessCtxFlagsOff = true) ∧
      ((handleRetry witnessCtxFlagsOff 0 3 witnessErr429).1.retry = true ∧
        (handleRetry witnessCtxFlagsOff 0 3 witnessErr429).1.isRateLimited =
          true) ∧
      (handleRetry witnessCtxFlagsOff 0 3 witnessErr).1.retry = true :=
  ⟨retryFlags_always_true.1 witnessCtxFlagsOff,
    retryFlags_always_true.2.1 witnessCtxFlagsOff 0 3 witnessErr429
      (by decide) (by decide),
    retryFlags_always_true.2.2 witnessCtxFlagsOff 0 3 witnessErr 503
      (by decide) (by decide) (by decide)⟩

/-- A `requestLimit` client whose token bucket interval is `0` and whose
configured `retryBackoffBaseTime` is `500`. -/
def witnessCtxIntervalZero : ClientCtx :=
  ⟨RateLimitType.requestLimit, 0,
    some ⟨none, none, none, some 500, none, none, none⟩⟩

/-- Counterexample for C7 as stated: at a `requestLimit` client with
`interval = 0`, a retried 503 gets `waitTime = 500` (the configured
`retryBackoffBaseTime`), not `retries ^ p * interval = 0`: the JS
expression `(type === requestLimit && interval) || retryBackoffBaseTime`
falls through to the base time when the interval is falsy. -/
theorem handleBackoff_base_counterexample :
    (handleRetry witnessCtxIntervalZero 0 3 witnessErr).1.retry = true ∧
      (handleRetry witnessCtxIntervalZero 0 3 witnessErr).2 = 1 ∧
      (handleRetry witnessCtxIntervalZero 0 3 witnessErr).1.waitTime = 500 ∧
      witnessCtxIntervalZero.rateLimitType = RateLimitType.requestLimit ∧
      ((1 : Int) ^ 2 * witnessCtxIntervalZero.interval = 0) := by
  decide

/-- C7 (amended): whenever the retry decision indicates a retry, the
retry counter is incremented once and
`waitTime = newRetries ^ p * base`, with `p = 2` for the exponential
method (the default) and `1` for linear, and `base` the token bucket's
`interval` when the rate limit is `requestLimit` with a nonzero
interval, and the effective `retryBackoffBaseTime` otherwise. -/
theorem handleRetry_backoff (c : ClientCtx) (retries maxRetries : Nat)
    (err : ErrorInfo)
    (h : (handleRetry c retries maxRetries err).1.retry = true) :
    (handleRetry c retries maxRetries err).2 = retries + 1 ∧
      (handleRetry c retries maxRetries err).1.waitTime =
        ((retries + 1 : Nat) : Int) ^
            (if effRetryBackoffMethod c = BackoffMethod.exponential
              then 2 else 1) *
          (if c.rateLimitType = RateLimitType.requestLimit ∧ c.interval ≠ 0
            then c.interval else effRetryBackoffBaseTime c) := by
  unfold handleRetry at h ⊢
  by_cases hd : (retryCascade c retries maxRetries err).retry = false
  · rw [if_pos hd] at h
    simp [hd] at h
  · rw [if_neg hd]
    exact ⟨rfl, rfl⟩

/-- Concrete linear-backoff client for the C7 witness. -/
def witnessCtxLinear : ClientCtx :=
  ⟨RateLimitType.concurrencyLimit, 77,
    some ⟨none, none, none, some 200, some BackoffMethod.linear, none, none⟩⟩

/-- Witness for C7 (amended): a second retry of a 503 under the linear
method with base time 200 waits `2 ^ 1 * 200`. -/
theorem handleRetry_backoff_witness :
    (handleRetry witnessCtxLinear 1 3 witnessErr).1.retry = true ∧
      ((handleRetry witnessCtxLinear 1 3 witnessErr).2 = 1 + 1 ∧
        (handleRetry witnessCtxLinear 1 3 witnessErr).1.waitTime =
          ((1 + 1 : Nat) : Int) ^
              (if effRetryBackoffMethod witnessCtxLinear =
                BackoffMethod.exponential then 2 else 1) *
            (if witnessCtxLinear.rateLimitType =
                  RateLimitType.requestLimit ∧
                witnessCtxLinear.interval ≠ 0
              then witnessCtxLinear.interval
              else effRetryBackoffBaseTime witnessCtxLinear)) :=
  ⟨by decide, handleRetry_backoff witnessCtxLinear 1 3 witnessErr (by decide)⟩

end HandleRequestError

/-! ### Request defaults merge (`Request` constructor and
`Request.handleRequestDefaults`)

The constructor builds
`{...config, baseURL: baseURL || config.baseURL,
headers: {...config.headers, ...(headers || {})},
params: {...config.params, ...(params || {})}}`; object spread lets the
right operand win per key.  `handleRequestDefaults` spreads default
headers over the caller's headers, replaces `baseURL` when the default
is truthy, and spreads the caller's params over the default params.
JS objects with string values are modelled as partial maps
`String → Option String`. -/

namespace RequestMerge

/-- JS object spread `\x7b...a, ...b\x7d`: a key of `b` wins. -/
def spread (a b : String → Option String) : String → Option String :=
  fun k =>
    match b k with
    | some v => some v
    | none => a k

/-- JS `a || b` on optional strings (the empty string is falsy). -/
def jsOrStr (a b : Option String) : Option String :=
  match a with
  | some s => if s = "" then b else some s
  | none => b

/-- The caller-supplied request config (the fields the defaults merge
touches). -/
structure RequestConfig where
  baseURL : Option String
  headers : String → Option String
  params : String → Option String

/-- `requestOptions.defaults`. -/
structure RequestDefaults where
  baseURL : Option String
  headers : Option (String → Option String)
  params : Option (String → Option String)

/-- The defaults application in the `Request` constructor. -/
def applyDefaultsCtor (config : RequestConfig)
    (defaults : Option RequestDefaults) : RequestConfig :=
  match defaults with
  | none => config
  | some d =>
    { baseURL := jsOrStr d.baseURL config.baseURL,
      headers := spread config.headers (d.headers.getD fun _ => none),
      params := spread config.params (d.params.getD fun _ => none) }

/-- `Request.handleRequestDefaults` of `src/request/index.ts`. -/
def handleRequestDefaults (config : RequestConfig)
    (defaults : Option RequestDefaults) : RequestConfig :=
  match defaults with
  | none => config
  | some d =>
    let c1 :=
      match d.headers with
      | some h => { config with headers := spread config.headers h }
      | none => config
    let c2 :=
      if strTruthy d.baseURL then { c1 with baseURL := d.baseURL } else c1
    match d.params with
    | some p => { c2 with params := spread p c2.params }
    | none => c2

/-- Concrete caller config for the C8 counterexample: explicit baseURL,
one explicit header, one explicit param. -/
def callerConfig : RequestConfig :=
  ⟨some "https://caller",
    fun k => if k = "x" then some "caller" else none,
    fun k => if k = "q" then some "caller" else none⟩

/-- Concrete defaults that set the same header key, the same param key
and a baseURL. -/
def defaultsConfig : RequestDefaults :=
  ⟨some "https://default",
    some fun k => if k = "x" then some "default" else none,
    some fun k => if k = "q" then some "default" else none⟩

/-- Counterexample for C8 as stated: the constructor merge replaces the
caller's explicit header, param and baseURL with the defaults, and
`handleRequestDefaults` replaces the caller's explicit header too, so
the caller's explicit values do not win. -/
theorem requestDefaults_counterexample :
    (applyDefaultsCtor callerConfig (some defaultsConfig)).headers "x" =
        some "default" ∧
      callerConfig.headers "x" = some "caller" ∧
      (applyDefaultsCtor callerConfig (some defaultsConfig)).params "q" =
        some "default" ∧
      (applyDefaultsCtor callerConfig (some defaultsConfig)).baseURL =
        some "https://default" ∧
      callerConfig.baseURL = some "https://caller" ∧
      (handleRequestDefaults callerConfig (some defaultsConfig)).headers "x" =
        some "default" ∧
      ("default" : String) ≠ "caller" := by
  refine ⟨by decide, by decide, by decide, by decide, by decide, by decide,
    by decide⟩

/-- C8 (amended): applying `requestOptions.defaults` overrides the
caller's config instead of filling its gaps: in the `Request`
constructor a default header or param replaces the caller's value at
the same key and a nonempty default baseURL replaces the caller's
baseURL, the caller's values surviving only at keys the defaults do not
set; `handleRequestDefaults` behaves the same for headers and baseURL,
while its default params are merged under the caller's params, so for
that one field the caller's explicit values win. -/
theorem requestDefaults_override (config : RequestConfig)
    (d : RequestDefaults) (k : String) :
    (∀ h, d.headers = some h →
        (applyDefaultsCtor config (some d)).headers k =
          (match h k with
           | some v => some v
           | none => config.headers k)) ∧
      (∀ p, d.params = some p →
        (applyDefaultsCtor config (some d)).params k =
          (match p k with
           | some v => some v
           | none => config.params k)) ∧
      (∀ s, d.baseURL = some s → s ≠ "" →
        (applyDefaultsCtor config (some d)).baseURL = some s) ∧
      (∀ h, d.headers = some h →
        (handleRequestDefaults config (some d)).headers k =
          (match h k with
           | some v => some v
           | none => config.headers k)) ∧
      (∀ s, d.baseURL = some s → s ≠ "" →
        (handleRequestDefaults config (some d)).baseURL = some s) ∧
      (∀ p, d.params = some p →
        (handleRequestDefaults config (some d)).params k =
          (match config.params k with
           | some v => some v
           | none => p k)) := by
  refine ⟨?_, ?_, ?_, ?_, ?_, ?_⟩
  · intro h hh
    simp [applyDefaultsCtor, hh, spread]
  · intro p hp
    simp [applyDefaultsCtor, hp, spread]
  · intro s hs hne
    simp [applyDefaultsCtor, hs, jsOrStr, hne]
  · intro h hh
    simp only [handleRequestDefaults]
    rw [hh]
    cases hp : d.params with
    | none =>
      by_cases hb : strTruthy d.baseURL = true
      · simp [hb, spread]
      · simp [Bool.not_eq_true] at hb
        simp [hb, spread]
    | some p =>
      by_cases hb : strTruthy d.baseURL = true
      · simp [hb, spread]
      · simp [Bool.not_eq_true] at hb
        simp [hb, spread]
  · intro s hs hne
    simp only [handleRequestDefaults]
    rw [hs]
    have hb : strTruthy (some s) = true := by
      simp [strTruthy, hne]
    cases hp : d.params with
    | none =>
      cases hh : d.headers with
      | none => simp [hb]
      | some h => simp [hb]
    | some p =>
      cases hh : d.headers with
      | none => simp [hb]
      | some h => simp [hb]
  · intro p hp
    simp only [handleRequestDefaults]
    rw [hp]
    cases hh : d.headers with
    | none =>
      by_cases hb : strTruthy d.baseURL = true
      · simp [hb, spread]
      · simp [Bool.not_eq_true] at hb
        simp [hb, spread]
    | some h =>
      by_cases hb : strTruthy d.baseURL = true
      · simp [hb, spread]
      · simp [Bool.not_eq_true] at hb
        simp [hb, spread]

/-- Witness for C8 (amended): the override behaviour at the concrete
caller config and defaults, each hypothesis discharged concretely. -/
theorem requestDefaults_override_witness :
    defaultsConfig.headers.isSome ∧
      (applyDefaultsCtor callerConfig (some defaultsConfig)).headers "x" =
        (match (fun k =>
            if k = "x" then some "default" else none : String → Option String)
            "x" with
         | some v => some v
         | none => callerConfig.headers "x") :=
  ⟨by decide,
    (requestDefaults_override callerConfig defaultsConfig "x").1
      (fun k => if k = "x" then some "default" else none) rfl⟩

end RequestMerge

/-! ### Token-bucket client (`RequestLimitClient`)

`tokens` starts at `maxTokens`; the periodic `addTokens` tick tops the
bucket up by `tokensToAdd` capped at `maxTokens` and does nothing while
a freeze timer is pending; a freeze zeroes the bucket; `waitForTurn`
decrements by `cost`, and its `waitForTokens` listener only resolves
once `tokens >= cost` (when the bucket already holds enough tokens at
entry, `waitForTurn` returns without decrementing, which we model as
the decrement applying exactly when `tokens >= cost`). -/

namespace RequestLimitClient

/-- The `requestLimit` rate-limit options. -/
structure RequestLimitOptions where
  interval : Int
  tokensToAdd : Int
  maxTokens : Int
deriving DecidableEq

/-- The mutable state of a `RequestLimitClient`: role, stored rate
limit, token count, pending freeze timer, and the period of the running
add-tokens interval (if one runs). -/
structure State where
  role : ClientRole
  rateLimit : RequestLimitOptions
  tokens : Int
  frozen : Bool
  intervalPeriod : Option Int
deriving DecidableEq

/-- The constructor: `this.tokens = rateLimit.maxTokens`. -/
def init (role : ClientRole) (rl : RequestLimitOptions) : State :=
  { role := role, rateLimit := rl, tokens := rl.maxTokens, frozen := false,
    intervalPeriod := none }

/-- `addTokens`: no-op at a full bucket or while frozen; clamp a
negative or overfull count; otherwise add `tokensToAdd` capped at
`maxTokens`. -/
def addTokens (s : State) : State :=
  if s.tokens = s.rateLimit.maxTokens ∨ s.frozen then s
  else if s.tokens < 0 then { s with tokens := 0 }
  else if s.tokens > s.rateLimit.maxTokens then
    { s with tokens := s.rateLimit.maxTokens }
  else if s.rateLimit.tokensToAdd + s.tokens > s.rateLimit.maxTokens then
    { s with tokens := s.rateLimit.maxTokens }
  else { s with tokens := s.tokens + s.rateLimit.tokensToAdd }

/-- `handleFreezeOwnTypeRequests` plus the base class arming the freeze
timer: zero the bucket and mark the client frozen. -/
def freeze (s : State) : State :=
  { s with tokens := 0, frozen := true }

/-- The freeze timer firing. -/
def unfreeze (s : State) : State :=
  { s with frozen := false }

/-- The token decrement of `waitForTurn`: applied exactly when
`tokens >= cost` (the `waitForTokens` listener refuses to resolve
before that; the early-return path never decrements). -/
def admitDecrement (cost : Int) (s : State) : State :=
  if s.tokens ≥ cost then { s with tokens := s.tokens - cost } else s

/-- The operations of the claim: the periodic tick, the freeze action,
the freeze timer lapsing, and an admission decrement. -/
inductive TokenOp
  | tick
  | freezeAction
  | freezeLapse
  | admitDec (cost : Int)
deriving DecidableEq

def applyOp : TokenOp → State → State
  | TokenOp.tick, s => addTokens s
  | TokenOp.freezeAction, s => freeze s
  | TokenOp.freezeLapse, s => unfreeze s
  | TokenOp.admitDec cost, s => admitDecrement cost s

/-- Request costs are nonnegative. -/
def opOK : TokenOp → Prop
  | TokenOp.admitDec cost => 0 ≤ cost
  | _ => True

instance opOK_decidable : DecidablePred opOK := by
  intro op
  cases op with
  | admitDec cost => exact inferInstanceAs (Decidable (0 ≤ cost))
  | tick => exact Decidable.isTrue trivial
  | freezeAction => exact Decidable.isTrue trivial
  | freezeLapse => exact Decidable.isTrue trivial

def applyOps (ops : List TokenOp) (s : State) : State :=
  ops.foldl (fun s op => applyOp op s) s

/-- The claimed range invariant. -/
def tokensInRange (s : State) : Prop :=
  0 ≤ s.tokens ∧ s.tokens ≤ s.rateLimit.maxTokens

theorem applyOps_cons (op : TokenOp) (ops : List TokenOp) (s : State) :
    applyOps (op :: ops) s = applyOps ops (applyOp op s) :=
  rfl

theorem applyOp_rateLimit (op : TokenOp) (s : State) :
    (applyOp op s).rateLimit = s.rateLimit := by
  cases op with
  | tick =>
    simp only [applyOp]
    unfold addTokens
    split_ifs <;> rfl
  | freezeAction => rfl
  | freezeLapse => rfl
  | admitDec cost =>
    simp only [applyOp]
    unfold admitDecrement
    split_ifs <;> rfl

theorem tokensInRange_applyOp (op : TokenOp) (s : State) (hok : opOK op)
    (hta : 0 ≤ s.rateLimit.tokensToAdd) (hinv : tokensInRange s) :
    tokensInRange (applyOp op s) := by
  obtain ⟨h0, h1⟩ := hinv
  cases op with
  | tick =>
    simp only [applyOp]
    unfold addTokens tokensInRange
    split_ifs with hfull hneg hover hcap <;> constructor <;> (try simp) <;>
      omega
  | freezeAction =>
    exact ⟨le_refl 0, by simpa [freeze] using le_trans h0 h1⟩
  | freezeLapse => exact ⟨h0, h1⟩
  | admitDec cost =>
    simp only [applyOp]
    simp only [opOK] at hok
    unfold admitDecrement tokensInRange
    split_ifs with hc <;> constructor <;> (try simp) <;> omega

theorem tokensInRange_applyOps (ops : List TokenOp) (s : State)
    (hops : ∀ op ∈ ops, opOK op) (hta : 0 ≤ s.rateLimit.tokensToAdd)
    (hinv : tokensInRange s) :
    tokensInRange (applyOps ops s) ∧ (applyOps ops s).rateLimit =
      s.rateLimit := by
  induction ops generalizing s with
  | nil => exact ⟨hinv, rfl⟩
  | cons op ops ih =>
    have hok : opOK op := hops op (List.mem_cons_self _ _)
    have hrest : ∀ o ∈ ops, opOK o := fun o ho =>
      hops o (List.mem_cons_of_mem _ ho)
    have hrl := applyOp_rateLimit op s
    have hta' : 0 ≤ (applyOp op s).rateLimit.tokensToAdd := by
      rw [hrl]
      exact hta
    have hinv' := tokensInRange_applyOp op s hok hta hinv
    obtain ⟨ha, hb⟩ := ih (applyOp op s) hrest hta' hinv'
    rw [applyOps_cons]
    exact ⟨ha, by rw [hb, hrl]⟩

/-- C3: starting from a full bucket, every sequence of the operations
that change `tokens` — the periodic `addTokens` tick, the freeze action
zeroing the bucket, the freeze timer lapsing, and admissions that
decrement by a nonnegative cost only when enough tokens are present —
keeps `tokens` within `[0, maxTokens]`. -/
theorem tokenBucket_invariant (role : ClientRole)
    (rl : RequestLimitOptions) (hmax : 0 ≤ rl.maxTokens)
    (hta : 0 ≤ rl.tokensToAdd) (ops : List TokenOp)
    (hops : ∀ op ∈ ops, opOK op) :
    0 ≤ (applyOps ops (init role rl)).tokens ∧
      (applyOps ops (init role rl)).tokens ≤ rl.maxTokens := by
  have hinit : tokensInRange (init role rl) := ⟨hmax, le_refl _⟩
  obtain ⟨⟨ha, hb⟩, hrl⟩ :=
    tokensInRange_applyOps ops (init role rl) hops hta hinit
  rw [hrl] at hb
  exact ⟨ha, hb⟩

/-- Witness for C3: a concrete bucket (interval 1000, add 2, max 5)
driven through a tick, a freeze, a lapse, an admission of cost 3 and a
final tick. -/
theorem tokenBucket_invariant_witness :
    (0 : Int) ≤ 5 ∧ (0 : Int) ≤ 2 ∧
      ((0 : Int) ≤
          (applyOps
            [TokenOp.tick, TokenOp.freezeAction, TokenOp.freezeLapse,
              TokenOp.admitDec 3, TokenOp.tick]
            (init ClientRole.controller ⟨1000, 2, 5⟩)).tokens ∧
        (applyOps
            [TokenOp.tick, TokenOp.freezeAction, TokenOp.freezeLapse,
              TokenOp.admitDec 3, TokenOp.tick]
            (init ClientRole.controller ⟨1000, 2, 5⟩)).tokens ≤ 5) :=
  ⟨by decide, by decide,
    tokenBucket_invariant ClientRole.controller ⟨1000, 2, 5⟩ (by decide)
      (by decide) _ (by decide)⟩

/-- The payload of a `rateLimitUpdated` message. -/
structure RateLimitUpdatedData where
  rlType : RateLimitType
  interval : Int
  tokensToAdd : Int
  maxTokens : Int
deriving DecidableEq

/-- `startAddTokensInterval`: nothing on a worker; otherwise replace the
running interval with one firing every `this.rateLimit.interval`. -/
def startAddTokensInterval (s : State) : State :=
  if s.role = ClientRole.worker then s
  else { s with intervalPeriod := some s.rateLimit.interval }

/-- `handleRateLimitUpdated` of `RequestLimitClient`: the guard skips
non-requestLimit payloads; the next two statements are bare comparison
and conditional expressions (`this.rateLimit === data.rateLimit;` and
`this.tokens > data.rateLimit.maxTokens ? ... : ...;`) with no
assignment, so the only effect is `startAddTokensInterval`. -/
def handleRateLimitUpdated (data : RateLimitUpdatedData) (s : State) :
    State :=
  if data.rlType ≠ RateLimitType.requestLimit then s
  else startAddTokensInterval s

/-- C10: a `rateLimitUpdated` message carrying a `requestLimit` payload
leaves the stored rate limit, the token count, the frozen flag and the
role unchanged; its only effect is to restart the add-tokens interval,
and the restarted interval uses the old `rateLimit.interval` — the
message's `interval`, `tokensToAdd` and `maxTokens` are never applied. -/
theorem handleRateLimitUpdated_frame (s : State)
    (data : RateLimitUpdatedData)
    (h : data.rlType = RateLimitType.requestLimit) :
    (handleRateLimitUpdated data s).rateLimit = s.rateLimit ∧
      (handleRateLimitUpdated data s).tokens = s.tokens ∧
      (handleRateLimitUpdated data s).frozen = s.frozen ∧
      (handleRateLimitUpdated data s).role = s.role ∧
      (handleRateLimitUpdated data s).intervalPeriod =
        (if s.role = ClientRole.worker then s.intervalPeriod
         else some s.rateLimit.interval) := by
  unfold handleRateLimitUpdated startAddTokensInterval
  rw [if_neg (by simp [h])]
  by_cases hr : s.role = ClientRole.worker
  · simp [hr]
  · simp [hr]

/-- Witness for C10: a controller whose bucket holds 7 tokens under
rate limit (1000, 2, 5) receiving a `requestLimit` update carrying
(50, 9, 9). -/
theorem handleRateLimitUpdated_frame_witness :
    (RateLimitUpdatedData.mk RateLimitType.requestLimit 50 9 9).rlType =
        RateLimitType.requestLimit ∧
      ((handleRateLimitUpdated ⟨RateLimitType.requestLimit, 50, 9, 9⟩
            ⟨ClientRole.controller, ⟨1000, 2, 5⟩, 7, false, none⟩).rateLimit =
          (⟨ClientRole.controller, ⟨1000, 2, 5⟩, 7, false, none⟩ :
            State).rateLimit ∧
        (handleRateLimitUpdated ⟨RateLimitType.requestLimit, 50, 9, 9⟩
            ⟨ClientRole.controller, ⟨1000, 2, 5⟩, 7, false, none⟩).tokens =
          (⟨ClientRole.controller, ⟨1000, 2, 5⟩, 7, false, none⟩ :
            State).tokens ∧
        (handleRateLimitUpdated ⟨RateLimitType.requestLimit, 50, 9, 9⟩
            ⟨ClientRole.controller, ⟨1000, 2, 5⟩, 7, false, none⟩).frozen =
          (⟨ClientRole.controller, ⟨1000, 2, 5⟩, 7, false, none⟩ :
            State).frozen ∧
        (handleRateLimitUpdated ⟨RateLimitType.requestLimit, 50, 9, 9⟩
            ⟨ClientRole.controller, ⟨1000, 2, 5⟩, 7, false, none⟩).role =
          (⟨ClientRole.controller, ⟨1000, 2, 5⟩, 7, false, none⟩ :
            State).role ∧
        (handleRateLimitUpdated ⟨RateLimitType.requestLimit, 50, 9, 9⟩
            ⟨ClientRole.controller, ⟨1000, 2, 5⟩, 7, false, none⟩).intervalPeriod =
          (if (⟨ClientRole.controller, ⟨1000, 2, 5⟩, 7, false, none⟩ :
                State).role = ClientRole.worker
            then (⟨ClientRole.controller, ⟨1000, 2, 5⟩, 7, false, none⟩ :
              State).intervalPeriod
            else some (⟨ClientRole.controller, ⟨1000, 2, 5⟩, 7, false,
              none⟩ : State).rateLimit.interval)) :=
  ⟨rfl,
    handleRateLimitUpdated_frame
      ⟨ClientRole.controller, ⟨1000, 2, 5⟩, 7, false, none⟩
      ⟨RateLimitType.requestLimit, 50, 9, 9⟩ rfl⟩

end RequestLimitClient

/-! ### Freeze / thaw (`src/client/handleRedisMessage.ts` with the
admission loop of `src/client/processRequests.ts`)

`handleRequestDone` (controller only): a `waitTime` freezes the client
(`handleFreezeRequests`: zero a token bucket, replace the freeze timer,
arm the thaw counter from `retryOptions?.thawRequestCount || 3` when
`isRateLimited`), a `concurrencyLimit` client returns the cost to the
bucket via `addTokens`, and a message matching `thawRequestId` clears
the gate, decrementing the counter only on success.  `processRequests`
runs the admission loop: it breaks before publishing while frozen or
gated, and while the thaw counter is positive it sets the gate and
breaks right after one `requestReady`. -/

namespace FreezeThaw

/-- Outcome carried by a `requestDone` message. -/
inductive DoneStatus
  | success
  | failure
deriving DecidableEq

/-- The payload of a `requestDone` message. -/
structure RequestDoneData where
  requestId : String
  cost : Int
  status : DoneStatus
  waitTime : Int
  isRateLimited : Bool
deriving DecidableEq

/-- The client state these handlers touch.  `freezeTimeout` holds the
pending freeze timer's duration, `intervalPeriod`-style bookkeeping is
not needed here.  `thawConfig` is `retryOptions?.thawRequestCount`. -/
structure CState where
  role : ClientRole
  rlType : RateLimitType
  tokens : Int
  tokensToAdd : Int
  maxTokens : Int
  maxConcurrency : Int
  freezeTimeout : Option Int
  thawRequestCount : Int
  thawRequestId : Option String
  thawConfig : Option Int
  requests : List RequestMetadata
deriving DecidableEq

/-- `handleFreezeRequests`: zero a token bucket, arm the thaw counter
when rate-limited, and replace any prior freeze timer with one for
`waitTime`. -/
def handleFreezeRequests (d : RequestDoneData) (s : CState) : CState :=
  let s1 :=
    if s.rlType = RateLimitType.requestLimit then { s with tokens := 0 }
    else s
  let s2 :=
    if d.isRateLimited then
      { s1 with thawRequestCount := jsOrInt s1.thawConfig 3 }
    else s1
  { s2 with freezeTimeout := some d.waitTime }

/-- The `addTokens(cost)` call a `concurrencyLimit` client makes on a
`requestDone` (the flat-token `Client.addTokens` of the same code
generation): skip for `noLimit` or a frozen token bucket, clamp, then
add `cost || 1` capped at the applicable maximum. -/
def addTokensDone (cost : Option Int) (s : CState) : CState :=
  if s.rlType = RateLimitType.noLimit then s
  else if s.freezeTimeout.isSome ∧ s.rlType = RateLimitType.requestLimit
    then s
  else
    let maxT :=
      if s.rlType = RateLimitType.requestLimit then s.maxTokens
      else s.maxConcurrency
    if s.tokens < 0 then { s with tokens := 0 }
    else if s.tokens > maxT then { s with tokens := maxT }
    else if s.tokens = maxT then s
    else
      let tta :=
        if s.rlType = RateLimitType.requestLimit then s.tokensToAdd
        else jsOrInt cost 1
      if tta + s.tokens > maxT then { s with tokens := maxT }
      else { s with tokens := s.tokens + tta }

/-- The tail of `handleRequestDone`: `return` unless the message is for
the gated request; otherwise clear the gate, decrementing the counter
exactly on success. -/
def resolveThawGate (d : RequestDoneData) (t : CState) : CState :=
  match t.thawRequestId with
  | none => t
  | some tid =>
    if d.requestId ≠ tid then t
    else
      { t with
        thawRequestCount :=
          if d.status = DoneStatus.success then t.thawRequestCount - 1
          else t.thawRequestCount,
        thawRequestId := none }

/-- The first half of `handleRequestDone`: a nonzero `waitTime`
freezes, then a `concurrencyLimit` client returns the cost to the
bucket. -/
def preGate (d : RequestDoneData) (s : CState) : CState :=
  let s1 := if d.waitTime ≠ 0 then handleFreezeRequests d s else s
  if s1.rlType = RateLimitType.concurrencyLimit then
    addTokensDone (some d.cost) s1
  else s1

/-- `handleRequestDone` of `handleRedisMessage.ts`: only the controller
acts; a nonzero `waitTime` freezes; a `concurrencyLimit` client returns
the cost; a message for the gated request clears `thawRequestId` and
decrements the counter exactly on success. -/
def handleRequestDone (d : RequestDoneData) (s : CState) : CState :=
  if s.role = ClientRole.worker then s
  else resolveThawGate d (preGate d s)

/-- One completed `waitForTurn` call of the admission loop, `none` when
it would suspend awaiting a `tokensAdded` or `requestDone` event.  The
`waitForTokens` of this file decrements the bucket on both paths. -/
def waitForTurnStep (cost : Int) (s : CState) : Option CState :=
  match s.rlType with
  | RateLimitType.requestLimit =>
    if s.tokens ≥ cost then some { s with tokens := s.tokens - cost }
    else none
  | RateLimitType.concurrencyLimit =>
    if s.maxConcurrency ≥
        ConcurrencyGate.getRequestsInProgressCost s.requests + cost then
      some s
    else none
  | _ => some s

/-- The do/while body of `processRequests`, returning the new state and
the `requestReady` request ids published by the run (the fuel bounds
the iteration count; each iteration needs one unit). -/
def processLoop : Nat → CState → CState × List String
  | 0, s => (s, [])
  | fuel + 1, s =>
    match ProcessRequests.getNextRequest s.requests with
    | none => (s, [])
    | some req =>
      match waitForTurnStep req.cost s with
      | none => (s, [])
      | some s1 =>
        if s1.freezeTimeout.isSome ∨ s1.thawRequestId.isSome then (s1, [])
        else
          let s2 :=
            if s1.thawRequestCount ≠ 0 then
              { s1 with thawRequestId := some req.requestId }
            else s1
          let s3 :=
            { s2 with
              requests :=
                ConcurrencyGate.markInProgress req.requestId s2.requests }
          if s3.thawRequestCount ≠ 0 then (s3, [req.requestId])
          else if s3.requests.length > 0 then
            let next := processLoop fuel s3
            (next.1, req.requestId :: next.2)
          else (s3, [req.requestId])

/-- `processRequests`: workers and `shared` clients never run the loop,
nor does a run start with an empty request map. -/
def processRequests (fuel : Nat) (s : CState) : CState × List String :=
  if s.role = ClientRole.worker ∨ s.rlType = RateLimitType.shared then
    (s, [])
  else if s.requests.isEmpty then (s, [])
  else processLoop fuel s

end FreezeThaw

namespace FreezeThaw

theorem addTokensDone_frame (cost : Option Int) (s : CState) :
    (addTokensDone cost s).freezeTimeout = s.freezeTimeout ∧
      (addTokensDone cost s).thawRequestCount = s.thawRequestCount ∧
      (addTokensDone cost s).thawRequestId = s.thawRequestId ∧
      (addTokensDone cost s).role = s.role ∧
      (addTokensDone cost s).rlType = s.rlType := by
  simp only [addTokensDone]
  split_ifs <;> exact ⟨rfl, rfl, rfl, rfl, rfl⟩

theorem handleFreezeRequests_fields (d : RequestDoneData) (s : CState) :
    (handleFreezeRequests d s).freezeTimeout = some d.waitTime ∧
      (handleFreezeRequests d s).tokens =
        (if s.rlType = RateLimitType.requestLimit then 0 else s.tokens) ∧
      (handleFreezeRequests d s).thawRequestCount =
        (if d.isRateLimited then jsOrInt s.thawConfig 3
         else s.thawRequestCount) ∧
      (handleFreezeRequests d s).thawRequestId = s.thawRequestId ∧
      (handleFreezeRequests d s).rlType = s.rlType ∧
      (handleFreezeRequests d s).role = s.role := by
  unfold handleFreezeRequests
  by_cases h1 : s.rlType = RateLimitType.requestLimit <;>
    by_cases h2 : d.isRateLimited <;> simp [h1, h2]

theorem resolveThawGate_frame (d : RequestDoneData) (t : CState) :
    (resolveThawGate d t).freezeTimeout = t.freezeTimeout ∧
      (resolveThawGate d t).tokens = t.tokens ∧
      (resolveThawGate d t).role = t.role ∧
      (resolveThawGate d t).rlType = t.rlType := by
  cases ht : t.thawRequestId with
  | none => simp [resolveThawGate, ht]
  | some tid =>
    by_cases h : d.requestId = tid
    · subst h
      simp [resolveThawGate, ht]
    · simp [resolveThawGate, ht, h]

theorem resolveThawGate_count (d : RequestDoneData) (t : CState) :
    (resolveThawGate d t).thawRequestCount =
      (if t.thawRequestId = some d.requestId ∧ d.status = DoneStatus.success
        then t.thawRequestCount - 1
        else t.thawRequestCount) := by
  cases ht : t.thawRequestId with
  | none => simp [resolveThawGate, ht]
  | some tid =>
    by_cases h : d.requestId = tid
    · subst h
      by_cases hs : d.status = DoneStatus.success <;>
        simp [resolveThawGate, ht, hs]
    · have hne : ¬ tid = d.requestId := fun he => h he.symm
      simp [resolveThawGate, ht, h, hne]

theorem resolveThawGate_id (d : RequestDoneData) (t : CState) :
    (resolveThawGate d t).thawRequestId =
      (if t.thawRequestId = some d.requestId then none
       else t.thawRequestId) := by
  cases ht : t.thawRequestId with
  | none => simp [resolveThawGate, ht]
  | some tid =>
    by_cases h : d.requestId = tid
    · subst h
      simp [resolveThawGate, ht]
    · have hne : ¬ tid = d.requestId := fun he => h he.symm
      simp [resolveThawGate, ht, h, hne]


theorem preGate_fields (d : RequestDoneData) (s : CState) :
    (preGate d s).thawRequestCount =
        (if d.waitTime ≠ 0 ∧ d.isRateLimited = true then
          jsOrInt s.thawConfig 3
         else s.thawRequestCount) ∧
      (preGate d s).thawRequestId = s.thawRequestId ∧
      (preGate d s).freezeTimeout =
        (if d.waitTime ≠ 0 then some d.waitTime else s.freezeTimeout) := by
  unfold preGate
  by_cases hw : d.waitTime ≠ 0
  · simp only [if_pos hw]
    obtain ⟨hf1, hf2, hf3, hf4, hf5, hf6⟩ := handleFreezeRequests_fields d s
    by_cases hc :
        (handleFreezeRequests d s).rlType = RateLimitType.concurrencyLimit
    · rw [if_pos hc]
      obtain ⟨ha1, ha2, ha3, ha4, ha5⟩ :=
        addTokensDone_frame (some d.cost) (handleFreezeRequests d s)
      refine ⟨?_, ?_, ?_⟩
      · rw [ha2, hf3]
        by_cases hrl : d.isRateLimited <;> simp [hrl, hw]
      · rw [ha3, hf4]
      · rw [ha1, hf1]
    · rw [if_neg hc]
      refine ⟨?_, ?_, ?_⟩
      · rw [hf3]
        by_cases hrl : d.isRateLimited <;> simp [hrl, hw]
      · exact hf4
      · exact hf1
  · simp only [if_neg hw]
    by_cases hc : s.rlType = RateLimitType.concurrencyLimit
    · rw [if_pos hc]
      obtain ⟨ha1, ha2, ha3, ha4, ha5⟩ := addTokensDone_frame (some d.cost) s
      refine ⟨?_, ?_, ?_⟩
      · rw [ha2]
        simp [hw]
      · exact ha3
      · exact ha1
    · rw [if_neg hc]
      refine ⟨?_, ?_, ?_⟩
      · simp [hw]
      · rfl
      · rfl

theorem handleRequestDone_eq (d : RequestDoneData) (s : CState)
    (hrole : s.role ≠ ClientRole.worker) :
    handleRequestDone d s = resolveThawGate d (preGate d s) := by
  unfold handleRequestDone
  rw [if_neg hrole]

theorem controller_ne_worker {s : CState}
    (hrole : s.role = ClientRole.controller) :
    s.role ≠ ClientRole.worker := by
  rw [hrole]
  exact fun h => nomatch h

theorem handleRequestDone_freeze (d : RequestDoneData) (s : CState)
    (hrole : s.role = ClientRole.controller) (hw : d.waitTime ≠ 0) :
    (handleRequestDone d s).freezeTimeout = some d.waitTime ∧
      (s.rlType = RateLimitType.requestLimit →
        (handleRequestDone d s).tokens = 0) := by
  rw [handleRequestDone_eq d s (controller_ne_worker hrole)]
  obtain ⟨hr1, hr2, hr3, hr4⟩ := resolveThawGate_frame d (preGate d s)
  obtain ⟨hp1, hp2, hp3⟩ := preGate_fields d s
  constructor
  · rw [hr1, hp3, if_pos hw]
  · intro hreq
    rw [hr2]
    unfold preGate
    simp only [if_pos hw]
    obtain ⟨hf1, hf2, hf3, hf4, hf5, hf6⟩ := handleFreezeRequests_fields d s
    have hcn : ¬ (handleFreezeRequests d s).rlType =
        RateLimitType.concurrencyLimit := by
      rw [hf5, hreq]
      exact fun h => nomatch h
    rw [if_neg hcn, hf2, if_pos hreq]

theorem handleRequestDone_count (d : RequestDoneData) (s : CState)
    (hrole : s.role = ClientRole.controller) :
    (handleRequestDone d s).thawRequestCount =
      (if s.thawRequestId = some d.requestId ∧ d.status = DoneStatus.success
        then (if d.waitTime ≠ 0 ∧ d.isRateLimited = true then
            jsOrInt s.thawConfig 3
          else s.thawRequestCount) - 1
        else (if d.waitTime ≠ 0 ∧ d.isRateLimited = true then
            jsOrInt s.thawConfig 3
          else s.thawRequestCount)) := by
  rw [handleRequestDone_eq d s (controller_ne_worker hrole),
    resolveThawGate_count]
  obtain ⟨hp1, hp2, hp3⟩ := preGate_fields d s
  rw [hp1, hp2]

theorem handleRequestDone_gate (d : RequestDoneData) (s : CState)
    (hrole : s.role = ClientRole.controller) :
    (handleRequestDone d s).thawRequestId =
      (if s.thawRequestId = some d.requestId then none
       else s.thawRequestId) := by
  rw [handleRequestDone_eq d s (controller_ne_worker hrole),
    resolveThawGate_id]
  obtain ⟨hp1, hp2, hp3⟩ := preGate_fields d s
  rw [hp2]

theorem waitForTurnStep_frame (cost : Int) (s s1 : CState)
    (h : waitForTurnStep cost s = some s1) :
    s1.thawRequestCount = s.thawRequestCount ∧
      s1.thawRequestId = s.thawRequestId ∧
      s1.freezeTimeout = s.freezeTimeout := by
  unfold waitForTurnStep at h
  cases hrl : s.rlType with
  | requestLimit =>
    rw [hrl] at h
    by_cases hc : s.tokens ≥ cost
    · rw [if_pos hc] at h
      cases h
      exact ⟨rfl, rfl, rfl⟩
    · rw [if_neg hc] at h
      cases h
  | concurrencyLimit =>
    rw [hrl] at h
    by_cases hc : s.maxConcurrency ≥
        ConcurrencyGate.getRequestsInProgressCost s.requests + cost
    · rw [if_pos hc] at h
      cases h
      exact ⟨rfl, rfl, rfl⟩
    · rw [if_neg hc] at h
      cases h
  | noLimit =>
    rw [hrl] at h
    cases h
    exact ⟨rfl, rfl, rfl⟩
  | shared =>
    rw [hrl] at h
    cases h
    exact ⟨rfl, rfl, rfl⟩

theorem processLoop_thawing (fuel : Nat) (s : CState)
    (h : s.thawRequestCount ≠ 0) : (processLoop fuel s).2.length ≤ 1 := by
  cases fuel with
  | zero => simp [processLoop]
  | succ n =>
    unfold processLoop
    cases hreq : ProcessRequests.getNextRequest s.requests with
    | none => simp [hreq]
    | some req =>
      cases hws : waitForTurnStep req.cost s with
      | none => simp [hreq, hws]
      | some s1 =>
        simp only [hreq, hws]
        obtain ⟨hw1, hw2, hw3⟩ := waitForTurnStep_frame req.cost s s1 hws
        by_cases hb : s1.freezeTimeout.isSome ∨ s1.thawRequestId.isSome
        · simp [hb]
        · rw [if_neg hb]
          have hc1 : s1.thawRequestCount ≠ 0 := by
            rw [hw1]
            exact h
          simp [hc1]

theorem processLoop_gated (fuel : Nat) (s : CState)
    (h : s.thawRequestId.isSome) : (processLoop fuel s).2 = [] := by
  cases fuel with
  | zero => rfl
  | succ n =>
    unfold processLoop
    cases hreq : ProcessRequests.getNextRequest s.requests with
    | none => simp [hreq]
    | some req =>
      cases hws : waitForTurnStep req.cost s with
      | none => simp [hreq, hws]
      | some s1 =>
        simp only [hreq, hws]
        obtain ⟨hw1, hw2, hw3⟩ := waitForTurnStep_frame req.cost s s1 hws
        have hgate : s1.thawRequestId.isSome := by
          rw [hw2]
          exact h
        rw [if_pos (Or.inr hgate)]

theorem processRequests_thawing (fuel : Nat) (s : CState)
    (h : s.thawRequestCount ≠ 0) :
    (processRequests fuel s).2.length ≤ 1 := by
  unfold processRequests
  split_ifs with h1 h2
  · simp
  · simp
  · exact processLoop_thawing fuel s h

theorem processRequests_gated (fuel : Nat) (s : CState)
    (h : s.thawRequestId.isSome) : (processRequests fuel s).2 = [] := by
  unfold processRequests
  split_ifs with h1 h2
  · rfl
  · rfl
  · exact processLoop_gated fuel s h

/-- C5: on the controller, a `requestDone` with positive `waitTime`
replaces the freeze timer with one for `waitTime`, zeroes a
`requestLimit` client's token bucket, and (together with the general
thaw accounting) arms the thaw counter to the effective
`thawRequestCount` (`retryOptions?.thawRequestCount || 3`) when
`isRateLimited`; the counter afterwards is the armed (or previous)
value, decremented exactly when the message is for the gated
`thawRequestId` request and reports success, and the gate is cleared
exactly by that request's `requestDone`; while the thaw counter is
positive one admission-loop run publishes at most one `requestReady`,
and while the gate is set it publishes none. -/
theorem freezeThaw_spec (s : CState) (d : RequestDoneData) (fuel : Nat) :
    (s.role = ClientRole.controller → 0 < d.waitTime →
      (handleRequestDone d s).freezeTimeout = some d.waitTime ∧
        (s.rlType = RateLimitType.requestLimit →
          (handleRequestDone d s).tokens = 0)) ∧
      (s.role = ClientRole.controller →
        (handleRequestDone d s).thawRequestCount =
          (if s.thawRequestId = some d.requestId ∧
              d.status = DoneStatus.success
            then (if d.waitTime ≠ 0 ∧ d.isRateLimited = true then
                jsOrInt s.thawConfig 3
              else s.thawRequestCount) - 1
            else (if d.waitTime ≠ 0 ∧ d.isRateLimited = true then
                jsOrInt s.thawConfig 3
              else s.thawRequestCount))) ∧
      (s.role = ClientRole.controller →
        (handleRequestDone d s).thawRequestId =
          (if s.thawRequestId = some d.requestId then none
           else s.thawRequestId)) ∧
      (0 < s.thawRequestCount → (processRequests fuel s).2.length ≤ 1) ∧
      (s.thawRequestId.isSome → (processRequests fuel s).2 = []) := by
  refine ⟨?_, ?_, ?_, ?_, ?_⟩
  · intro hrole hw
    exact handleRequestDone_freeze d s hrole (by omega)
  · intro hrole
    exact handleRequestDone_count d s hrole
  · intro hrole
    exact handleRequestDone_gate d s hrole
  · intro hc
    exact processRequests_thawing fuel s (by omega)
  · intro hg
    exact processRequests_gated fuel s hg

/-- Concrete controller state for the C5 witness: a thawing
`requestLimit` controller with one queued request. -/
def witnessState : CState :=
  { role := ClientRole.controller, rlType := RateLimitType.requestLimit,
    tokens := 4, tokensToAdd := 1, maxTokens := 4, maxConcurrency := 0,
    freezeTimeout := none, thawRequestCount := 2, thawRequestId := none,
    thawConfig := none,
    requests := [⟨"r9", 1, 1, 10, 0, RequestStatus.inQueue⟩] }

/-- Concrete rate-limited failure for the C5 witness. -/
def witnessDone : RequestDoneData :=
  { requestId := "r9", cost := 1, status := DoneStatus.failure,
    waitTime := 250, isRateLimited := true }

/-- Witness for C5: the freeze, counter, gate and loop clauses at a
concrete controller state, each hypothesis discharged concretely. -/
theorem freezeThaw_spec_witness :
    ((handleRequestDone witnessDone witnessState).freezeTimeout =
        some witnessDone.waitTime ∧
      (witnessState.rlType = RateLimitType.requestLimit →
        (handleRequestDone witnessDone witnessState).tokens = 0)) ∧
      (handleRequestDone witnessDone witnessState).thawRequestCount =
        (if witnessState.thawRequestId = some witnessDone.requestId ∧
            witnessDone.status = DoneStatus.success
          then (if witnessDone.waitTime ≠ 0 ∧
              witnessDone.isRateLimited = true then
              jsOrInt witnessState.thawConfig 3
            else witnessState.thawRequestCount) - 1
          else (if witnessDone.waitTime ≠ 0 ∧
              witnessDone.isRateLimited = true then
              jsOrInt witnessState.thawConfig 3
            else witnessState.thawRequestCount)) ∧
      (processRequests 5 witnessState).2.length ≤ 1 :=
  ⟨(freezeThaw_spec witnessState witnessDone 5).1 rfl (by decide),
    (freezeThaw_spec witnessState witnessDone 5).2.1 rfl,
    (freezeThaw_spec witnessState witnessDone 5).2.2.2.1 (by decide)⟩

end FreezeThaw
